import Mathlib

set_option allowUnsafeReducibility true in
attribute [semireducible] Rat.mul Rat.add Rat.sub Rat.inv Rat.div Rat.neg Rat.floor

/-!
A verification development for the ClassRotation scheduling core.

The definitions below are a shallow embedding of the TypeScript sources
`src/utils/scheduleEngine.ts`, `src/utils/simulatedAnnealing.ts` and
`src/utils/parallelScheduler.ts`:

* JavaScript `Date` values are modelled by their time value
  (`getTime()`, milliseconds since the epoch) as a `Nat`; the engine only
  ever compares dates by exact time value, and builds its two-week window
  by adding one day at a time, modelled as a fixed 86400000 ms step.
  The ISO day key `date.toISOString().split('T')[0]` is modelled by
  integer division of the time value by the day length (`dayKey`).
* JavaScript numbers are modelled by `ℚ`; every quantity the engine
  computes on the paths verified here is a rational with small
  numerator/denominator, so no floating-point rounding is modelled.
* Every call to `Math.random()` is modelled by an oracle argument: the
  shuffles `[...xs].sort(() => Math.random() - 0.5)` become
  oracle-supplied lists, each probabilistic comparison
  (`Math.random() < 0.99`, the Metropolis test) becomes an
  oracle-supplied Boolean, and the index draw
  `Math.floor(Math.random() * n)` keeps its real form over an
  oracle-supplied rational in `[0, 1)`. Theorems quantify over all
  oracles, which covers every actual run.
* Code that can fault at runtime (an out-of-bounds element access that
  yields `undefined` followed by a property read) is embedded in
  `Option`, with `none` for the fault.
-/

namespace CR

/-- Milliseconds in one day; the engine's date window advances in whole days. -/
def dayMs : Nat := 86400000

/-- The ISO calendar-day key of a time value (`toISOString().split('T')[0]`). -/
def dayKey (t : Nat) : Nat := t / dayMs

/-- Absolute distance between two time values (`Math.abs(t1 - t2)`). -/
def natDist (a b : Nat) : Nat := if a ≤ b then b - a else a - b

/-- JavaScript `x || d` on numbers: `0` (and absence) falls through to `d`. -/
def jsOr (n d : Nat) : Nat := if n = 0 then d else n

/-- JavaScript `parseInt` restricted to what the engine feeds it: the leading
decimal digits of the grade-level string, `none` for `NaN`. -/
def parseGrade (s : String) : Option Nat :=
  let ds := s.data.takeWhile Char.isDigit
  if ds.isEmpty then none
  else some (ds.foldl (fun a c => a * 10 + (c.toNat - 48)) 0)

/-- The comparison `parseInt(a) <= parseInt(b)`; any `NaN` makes it false. -/
def gradeLe (a b : Option Nat) : Bool :=
  match a, b with
  | some x, some y => x ≤ y
  | _, _ => false

/-- A forbidden or discouraged (date, period) slot of one class. -/
structure Conflict where
  date : Nat
  period : Nat
deriving DecidableEq, Repr

/-- A schedulable class item (the `Class` interface of `types.ts`). -/
structure Class where
  id : String
  name : String
  gradeLevel : String
  gradeGroup : String
  teacher : String
  totalConflicts : List Conflict
  partialConflicts : List Conflict
deriving DecidableEq, Repr

/-- A class item placed at a (date, period) slot (`ScheduledClass`). -/
structure ScheduledClass where
  id : String
  name : String
  gradeLevel : String
  gradeGroup : String
  teacher : String
  date : Nat
  period : Nat
  totalConflicts : List Conflict
  partialConflicts : List Conflict
deriving DecidableEq, Repr

/-- The score component vector (`ScheduleScore`). -/
structure ScheduleScore where
  totalLength : ℚ
  gradeGroupCohesion : ℚ
  distributionQuality : ℚ
  constraintViolations : ℚ
  gradeProgression : ℚ
  partialConflictPenalty : ℚ
deriving DecidableEq, Repr

/-- A schedule: the placed classes and their cached score (`Schedule`). -/
structure Schedule where
  classes : List ScheduledClass
  score : ScheduleScore
deriving DecidableEq, Repr

/-- The constraint record used by `scheduleEngine.ts` (`ScheduleConstraints`). -/
structure ScheduleConstraints where
  maxPeriodsPerDay : Nat
  maxClassesPerDay : Nat
  maxConsecutivePeriods : Nat
  requiredBreakLength : Nat
deriving DecidableEq, Repr

/-- The grade-progression preference (`GradeProgression`). -/
inductive GradeProgression where
  | none
  | lowToHigh
  | highToLow
deriving DecidableEq, Repr

/-- The preference record (`SchedulePreferences`); the engine stores none of it. -/
structure SchedulePreferences where
  gradeProgression : GradeProgression
deriving DecidableEq, Repr

/-- The engine state the constructor stores: the class catalogue, the start
date and the constraints.  The `_preferences` constructor argument is dropped
by the source, so it has no field here. -/
structure ScheduleEngine where
  classes : List Class
  startDate : Nat
  constraints : ScheduleConstraints
deriving DecidableEq, Repr

/-- The `ScheduleEngine` constructor: it assigns the three stored fields and
performs no validation of any kind; the `_preferences` argument is ignored. -/
def ScheduleEngine.construct (classes : List Class) (startDate : Nat)
    (constraints : ScheduleConstraints) (_preferences : SchedulePreferences) :
    ScheduleEngine :=
  { classes := classes, startDate := startDate, constraints := constraints }

/-- Grouping through a JavaScript `Map`: groups appear in order of first
occurrence of their key, and each group keeps the original element order. -/
def insertGrouped {κ : Type} [DecidableEq κ] (k : κ) (x : ScheduledClass) :
    List (κ × List ScheduledClass) → List (κ × List ScheduledClass)
  | [] => [(k, [x])]
  | (k', xs) :: rest =>
      if k' = k then (k', xs ++ [x]) :: rest else (k', xs) :: insertGrouped k x rest

/-- Builds the insertion-ordered grouping of a class list by a key. -/
def groupByKey {κ : Type} [DecidableEq κ] (key : ScheduledClass → κ)
    (l : List ScheduledClass) : List (κ × List ScheduledClass) :=
  l.foldl (fun acc x => insertGrouped (key x) x acc) []

/-- Stable insertion of one class into a period-sorted list: an element with
an equal period stays before the inserted one, as JavaScript's stable
`sort((a, b) => a.period - b.period)` keeps it. -/
def insertByPeriod (x : ScheduledClass) : List ScheduledClass → List ScheduledClass
  | [] => [x]
  | y :: ys => if y.period ≤ x.period then y :: insertByPeriod x ys else x :: y :: ys

/-- Stable sort of one day's classes by ascending period. -/
def sortByPeriod (l : List ScheduledClass) : List ScheduledClass :=
  l.foldl (fun acc x => insertByPeriod x acc) []

/-- Sum of `Math.abs` time distances over all unordered pairs of a group. -/
def pairDistSum : List ScheduledClass → Nat
  | [] => 0
  | x :: xs => xs.foldl (fun a y => a + natDist x.date y.date) 0 + pairDistSum xs

/-- The number of unordered pairs the double loop compares: `n * (n-1) / 2`. -/
def pairCount (n : Nat) : Nat := n * (n - 1) / 2

/-- The number of adjacent pairs whose grade levels do not decrease. -/
def countAdjLe : List ScheduledClass → Nat
  | a :: b :: rest =>
      (if gradeLe (parseGrade a.gradeLevel) (parseGrade b.gradeLevel) then 1 else 0)
        + countAdjLe (b :: rest)
  | _ => 0

/-- Whether a conflict list forbids the slot `(d, p)`:
`conflicts.some(c => c.date.getTime() === d.getTime() && c.period === p)`. -/
def hasTotalConflictAt (conflicts : List Conflict) (d p : Nat) : Bool :=
  conflicts.any fun cf => cf.date == d && cf.period == p

/-- One scheduled class's contribution to the violation count: look its id
up in the catalogue and add 1 when it sits on one of that class's
total-conflict slots. -/
def violationStep (catalogue : List Class) (v : ℚ) (sc : ScheduledClass) : ℚ :=
  match catalogue.find? (fun c => c.id == sc.id) with
  | Option.none => v
  | Option.some oc =>
      if hasTotalConflictAt oc.totalConflicts sc.date sc.period then v + 1 else v

/-- The total-conflict violation count of `calculateConstraintViolations`. -/
def calculateConstraintViolations (catalogue : List Class)
    (classes : List ScheduledClass) : ℚ :=
  classes.foldl (violationStep catalogue) 0

/-- One grade group's contribution to the cohesion accumulator. -/
def cohesionStep (acc : ℚ) (group : List ScheduledClass) : ℚ :=
  let comparisons := pairCount group.length
  if 0 < comparisons then
    acc + (1 - ((pairDistSum group : ℚ) / (comparisons : ℚ)) / ((14 * dayMs : Nat) : ℚ))
  else acc

/-- One day's step of the grade-progression accumulator.  Faithful to the
source: the adjacent-pair count is added to the running total, and then the
whole running total is divided by `dayClasses.length - 1` when that day has
more than one class. -/
def progressionStep (gp : ℚ) (dayClasses : List ScheduledClass) : ℚ :=
  let sorted := sortByPeriod dayClasses
  let gp := gp + (countAdjLe sorted : ℚ)
  if 1 < dayClasses.length then gp / ((dayClasses.length : ℚ) - 1) else gp

/-- `calculateScore` of `scheduleEngine.ts`. -/
def calculateScore (eng : ScheduleEngine) (classes : List ScheduledClass) :
    ScheduleScore :=
  let totalLength : ℚ := (classes.length : ℚ) / (eng.classes.length : ℚ)
  let gradeGroups := groupByKey (fun sc => sc.gradeGroup) classes
  let cohesionSum := gradeGroups.foldl (fun acc g => cohesionStep acc g.2) 0
  let gradeGroupCohesion :=
    if 0 < gradeGroups.length then cohesionSum / (gradeGroups.length : ℚ)
    else cohesionSum
  let classesByDate := groupByKey (fun sc => dayKey sc.date) classes
  let distSum := classesByDate.foldl
    (fun acc g => acc + (g.2.length : ℚ) / (eng.constraints.maxClassesPerDay : ℚ)) 0
  let distributionQuality :=
    if 0 < classesByDate.length then distSum / (classesByDate.length : ℚ)
    else distSum
  let classesByDay := groupByKey (fun sc => dayKey sc.date) classes
  let gradeProgression := classesByDay.foldl (fun gp g => progressionStep gp g.2) 0
  { totalLength := totalLength
    gradeGroupCohesion := gradeGroupCohesion
    distributionQuality := distributionQuality
    constraintViolations := calculateConstraintViolations eng.classes classes
    gradeProgression := gradeProgression
    partialConflictPenalty := 0 }

/-- `aggregateScore`: the weighted sum over the components, in the insertion
order of the source's `weights` object. -/
def aggregateScore (s : ScheduleScore) : ℚ :=
  0 + s.totalLength * 1 + s.gradeGroupCohesion * (1 / 2)
    + s.distributionQuality * (3 / 10) + s.constraintViolations * (-100)
    + s.gradeProgression * (2 / 5) + s.partialConflictPenalty * 0

/-- `getDateRange(startDate, numDays)`: `numDays` consecutive days. -/
def getDateRange (startDate : Nat) (numDays : Nat) : List Nat :=
  (List.range numDays).map fun i => startDate + i * dayMs

/-- The random draws one placement attempt of the initial-solution builder
consumes: the two shuffles, and the `Math.random() < 0.99` coin for each
candidate slot it inspects. -/
structure PlaceOracle where
  shuffledDates : List Nat
  shuffledPeriods : List Nat
  coin : Nat → Nat → Bool

/-- The random draws one `mutateSchedule` call consumes. -/
structure MutOracle where
  randIndex : ℚ
  shuffledDates : List Nat
  shuffledPeriods : List Nat
  coin : Nat → Nat → Bool

/-- The random draws of a whole `generateSchedule` run: a `PlaceOracle` per
catalogue position for the initial solution, a `MutOracle` per iteration, and
the outcome of the Metropolis comparison per iteration. -/
structure RunOracle where
  init : Nat → PlaceOracle
  mutAt : Nat → MutOracle
  metro : Nat → Bool

/-- Builds the scheduled entry the engine pushes for a class at a slot. -/
def mkScheduled (cls : Class) (d p : Nat) : ScheduledClass :=
  { id := cls.id, name := cls.name, gradeLevel := cls.gradeLevel
    gradeGroup := cls.gradeGroup, teacher := cls.teacher
    date := d, period := p
    totalConflicts := cls.totalConflicts, partialConflicts := cls.partialConflicts }

/-- The `if (!bestSlot) bestSlot = { date, period }` update: the remembered
best slot is only ever set while empty. -/
def orElseSlot (bs : Option (Nat × Nat)) (d p : Nat) : Option (Nat × Nat) :=
  match bs with
  | Option.none => Option.some (d, p)
  | Option.some b => Option.some b

/-- The inner period loop of the initial-solution builder on one date:
returns the updated remembered best slot and, when the 0.99 coin accepted a
conflict-free slot, that accepted slot. -/
def initScanPeriods (cls : Class) (coin : Nat → Nat → Bool) (d : Nat) :
    List Nat → Option (Nat × Nat) → Option (Nat × Nat) × Option (Nat × Nat)
  | [], bs => (bs, Option.none)
  | p :: ps, bs =>
      if hasTotalConflictAt cls.totalConflicts d p then
        initScanPeriods cls coin d ps bs
      else
        if coin d p then (orElseSlot bs d p, Option.some (d, p))
        else initScanPeriods cls coin d ps (orElseSlot bs d p)

/-- The date loop of the initial-solution builder: full days are skipped, and
the scan stops at the first coin-accepted slot. -/
def initScanDates (cls : Class) (po : PlaceOracle) (cpd : Nat → Nat)
    (maxPerDay : Nat) :
    List Nat → Option (Nat × Nat) → Option (Nat × Nat) × Option (Nat × Nat)
  | [], bs => (bs, Option.none)
  | d :: ds, bs =>
      if maxPerDay ≤ cpd (dayKey d) then initScanDates cls po cpd maxPerDay ds bs
      else
        match initScanPeriods cls po.coin d po.shuffledPeriods bs with
        | (bs', Option.some a) => (bs', Option.some a)
        | (bs', Option.none) => initScanDates cls po cpd maxPerDay ds bs'

/-- Bumps a per-day count by one (`classesPerDay.set(k, current + 1)`). -/
def bump (cpd : Nat → Nat) (k : Nat) : Nat → Nat :=
  fun k' => if k' = k then cpd k + 1 else cpd k'

/-- The `forEach` over the catalogue of `generateInitialSolution`: each class
is placed at the coin-accepted slot, else at the remembered conflict-free
best slot, else left unscheduled; per-day counts track the placements. -/
def buildInitial (po : Nat → PlaceOracle) (maxPerDay : Nat) :
    List Class → Nat → List ScheduledClass → (Nat → Nat) → List ScheduledClass
  | [], _, acc, _ => acc
  | cls :: rest, i, acc, cpd =>
      match initScanDates cls (po i) cpd maxPerDay (po i).shuffledDates
          Option.none with
      | (_, Option.some a) =>
          buildInitial po maxPerDay rest (i + 1) (acc ++ [mkScheduled cls a.1 a.2])
            (bump cpd (dayKey a.1))
      | (Option.some b, Option.none) =>
          buildInitial po maxPerDay rest (i + 1) (acc ++ [mkScheduled cls b.1 b.2])
            (bump cpd (dayKey b.1))
      | (Option.none, Option.none) => buildInitial po maxPerDay rest (i + 1) acc cpd

/-- `generateInitialSolution`: place every catalogue class and score once. -/
def generateInitialSolution (eng : ScheduleEngine) (po : Nat → PlaceOracle) :
    Schedule :=
  let classes :=
    buildInitial po eng.constraints.maxClassesPerDay eng.classes 0 [] (fun _ => 0)
  { classes := classes, score := calculateScore eng classes }

/-- The per-day counts `mutateSchedule` rebuilds from the schedule. -/
def buildCounts (classes : List ScheduledClass) : Nat → Nat :=
  classes.foldl (fun cpd sc => bump cpd (dayKey sc.date)) (fun _ => 0)

/-- `Math.floor(Math.random() * n)` over the oracle's rational draw. -/
def jsFloorNat (q : ℚ) : Nat := q.floor.toNat

/-- The index of the class `mutateSchedule` picks to move. -/
def mutIndex (mo : MutOracle) (s : Schedule) : Nat :=
  jsFloorNat (mo.randIndex * (s.classes.length : ℚ))

/-- The per-day counts after the moving class is removed from its day, with
the source's `(classesPerDay.get(oldDateKey) || 1) - 1` quirk. -/
def cpdAfterRemove (s : Schedule) (sc : ScheduledClass) : Nat → Nat :=
  let cpd := buildCounts s.classes
  fun k =>
    if k = dayKey sc.date then jsOr (cpd (dayKey sc.date)) 1 - 1 else cpd k

/-- The inner period loop of `mutateSchedule` on one date: returns the
updated remembered best slot, and whether the 0.99 coin stopped the scan.
Unlike the initial-solution builder, the accepted slot itself is not
remembered: the later commit uses the best slot. -/
def mutScanPeriods (oc : Class) (coin : Nat → Nat → Bool) (d : Nat) :
    List Nat → Option (Nat × Nat) → Option (Nat × Nat) × Bool
  | [], bs => (bs, false)
  | p :: ps, bs =>
      if hasTotalConflictAt oc.totalConflicts d p then
        mutScanPeriods oc coin d ps bs
      else
        if coin d p then (orElseSlot bs d p, true)
        else mutScanPeriods oc coin d ps (orElseSlot bs d p)

/-- The date loop of `mutateSchedule`: full days are skipped; the scan stops
once the coin fires; the remembered best slot is the result. -/
def mutScanDates (oc : Class) (mo : MutOracle) (cpd : Nat → Nat)
    (maxPerDay : Nat) : List Nat → Option (Nat × Nat) → Option (Nat × Nat)
  | [], bs => bs
  | d :: ds, bs =>
      if maxPerDay ≤ cpd (dayKey d) then mutScanDates oc mo cpd maxPerDay ds bs
      else
        match mutScanPeriods oc mo.coin d mo.shuffledPeriods bs with
        | (bs', true) => bs'
        | (bs', false) => mutScanDates oc mo cpd maxPerDay ds bs'

/-- The commit step of `mutateSchedule`: when a best slot was found, the
moving class is replaced by a copy relocated there; either way the schedule
is rescored. -/
def mutCommit (eng : ScheduleEngine) (mo : MutOracle) (schedule : Schedule)
    (classToMove : ScheduledClass) (slot : Option (Nat × Nat)) : Schedule :=
  match slot with
  | Option.none =>
      { classes := schedule.classes, score := calculateScore eng schedule.classes }
  | Option.some (d, p) =>
      { classes := schedule.classes.set (mutIndex mo schedule)
          { classToMove with date := d, period := p }
        score := calculateScore eng (schedule.classes.set (mutIndex mo schedule)
          { classToMove with date := d, period := p }) }

/-- The body of `mutateSchedule` once the moving class has been read: look
the class up in the catalogue (an unknown id returns the schedule unchanged),
scan for the destination slot, commit, and rescore. -/
def mutResult (eng : ScheduleEngine) (mo : MutOracle) (schedule : Schedule)
    (classToMove : ScheduledClass) : Schedule :=
  match eng.classes.find? (fun c => c.id == classToMove.id) with
  | Option.none => schedule
  | Option.some originalClass =>
      mutCommit eng mo schedule classToMove
        (mutScanDates originalClass mo (cpdAfterRemove schedule classToMove)
          eng.constraints.maxClassesPerDay mo.shuffledDates Option.none)

/-- `mutateSchedule`: pick a class at the drawn index, rescan for a
destination, move it, and rescore.  Indexing past the end of the class
array yields `undefined`, and the TypeError of reading `classToMove.id`
happens inside the `find` callback: `Array.prototype.find` never invokes
the callback on an empty catalogue, so in that case the lookup misses and
the schedule is returned unchanged, while on a nonempty catalogue the first
callback invocation throws — modeled as `none`. -/
def mutateSchedule (eng : ScheduleEngine) (mo : MutOracle) (schedule : Schedule) :
    Option Schedule :=
  match schedule.classes.get? (mutIndex mo schedule) with
  | Option.some classToMove => Option.some (mutResult eng mo schedule classToMove)
  | Option.none =>
      match eng.classes with
      | [] => Option.some schedule
      | _ :: _ => Option.none

/-- `MAX_ITERATIONS` of `scheduleEngine.ts`. -/
def MAX_ITERATIONS : Nat := 10000

/-- The stall limit `maxIterationsWithoutImprovement` of `generateSchedule`. -/
def stallLimit : Nat := 1000

/-- Comparison with the best score so far, whose initial value is the
JavaScript `-Infinity`: `none` compares below everything. -/
def gtNegInf (q : ℚ) : Option ℚ → Bool
  | Option.none => true
  | Option.some b => b < q

/-- The annealing loop of `generateSchedule`.  `fuel` is the number of
iterations still allowed by `iterations < MAX_ITERATIONS`; the returned
triple carries the best schedule (`none` when an iteration faulted), the
final iteration count and the final `lastImprovement`.  The temperature
`initialTemperature * coolingRate ^ iterations` feeds only the Metropolis
comparison `Math.random() < Math.exp((newScore - currentScore) /
temperature)`, whose outcome is the oracle Boolean `metro`; quantifying over
all Boolean streams covers every temperature schedule (it also admits
streams no real run produces, such as rejecting an equal-score candidate,
which only widens the set of behaviours the invariants hold over). -/
def annealLoopFull (eng : ScheduleEngine) (ro : RunOracle) :
    Nat → Nat → Nat → Schedule → Schedule → Option ℚ →
    Option Schedule × Nat × Nat
  | 0, it, li, _cur, best, _bs => (Option.some best, it, li)
  | fuel + 1, it, li, cur, best, bs =>
      if stallLimit ≤ it - li then (Option.some best, it, li)
      else
        match mutateSchedule eng (ro.mutAt it) cur with
        | Option.none => (Option.none, it, li)
        | Option.some newSched =>
            if aggregateScore cur.score < aggregateScore newSched.score
                ∨ ro.metro it = true then
              if gtNegInf (aggregateScore newSched.score) bs then
                annealLoopFull eng ro fuel (it + 1) it newSched newSched
                  (Option.some (aggregateScore newSched.score))
              else annealLoopFull eng ro fuel (it + 1) li newSched best bs
            else annealLoopFull eng ro fuel (it + 1) li cur best bs

/-- `ScheduleEngine.generateSchedule`: build the initial solution and run the
annealing loop; `none` models the run aborting with a thrown `TypeError`. -/
def ScheduleEngine.generateSchedule (eng : ScheduleEngine) (ro : RunOracle) :
    Option Schedule :=
  let init := generateInitialSolution eng ro.init
  (annealLoopFull eng ro MAX_ITERATIONS 0 0 init init Option.none).1

/-- The per-run comparison score of `ParallelScheduler.generateSchedule`. -/
def runScore (totalClasses : Nat) (s : Schedule) : ℚ :=
  s.score.gradeGroupCohesion + s.score.distributionQuality
    + ((s.classes.length : ℚ) / (totalClasses : ℚ)) * 1000

/-- The run loop of `ParallelScheduler.generateSchedule`.  The result of run
`i` is the oracle value `rr i`: a schedule, or the error the run threw.  The
source has no handler around `await scheduler.generateSchedule()`, so an
error return leaves the loop at once.  `Except.ok none` models the
`bestSchedule!` return of the never-assigned `null`. -/
def parallelLoop (rr : Nat → Except String Schedule) (total : Nat) :
    Nat → Nat → Option (Schedule × ℚ) → Except String (Option Schedule)
  | _, 0, best => Except.ok (best.map Prod.fst)
  | i, rem + 1, best =>
      match rr i with
      | Except.error e => Except.error e
      | Except.ok s =>
          let sc := runScore total s
          let best' := match best with
            | Option.none => Option.some (s, sc)
            | Option.some (b, bsc) =>
                if bsc < sc then Option.some (s, sc) else Option.some (b, bsc)
          parallelLoop rr total (i + 1) rem best'

/-- `ParallelScheduler.generateSchedule` over the per-run outcomes `rr`:
`workerCount` is capped at 8, and runs are visited in index order. -/
def parallelGenerateSchedule (classes : List Class)
    (rr : Nat → Except String Schedule) (workerCount : Nat) :
    Except String (Option Schedule) :=
  parallelLoop rr classes.length 0 (min workerCount 8) Option.none

/-- The annealing run of `generateSchedule` with its final iteration count
and `lastImprovement` value exposed. -/
def annealRun (eng : ScheduleEngine) (ro : RunOracle) :
    Option Schedule × Nat × Nat :=
  annealLoopFull eng ro MAX_ITERATIONS 0 0 (generateInitialSolution eng ro.init)
    (generateInitialSolution eng ro.init) Option.none

/-- Validity of constraint values, following the spec's words (§4.2), on the
fields the engine's constraint record has: the spec's
`consecutivePeriods.maximum` and `requireBreak` are `maxConsecutivePeriods`
and `requiredBreakLength` here, each required to lie in `{1, 2}`, and
`maxPeriodsPerDay` must lie in `[1, 8]`; the spec's `maxPeriodsPerWeek`
bounds have no corresponding field in this record. -/
def specValidConstraints (k : ScheduleConstraints) : Bool :=
  (k.maxConsecutivePeriods == 1 || k.maxConsecutivePeriods == 2)
    && (k.requiredBreakLength == 1 || k.requiredBreakLength == 2)
    && (1 ≤ k.maxPeriodsPerDay && k.maxPeriodsPerDay ≤ 8)

/-- The no-total-conflict placement invariant: no scheduled class sits on a
slot that its catalogue class forbids, comparing dates by exact time value
and periods by number. -/
def noConflictPlacement (catalogue : List Class)
    (classes : List ScheduledClass) : Prop :=
  ∀ sc ∈ classes, ∀ c ∈ catalogue, c.id = sc.id →
    hasTotalConflictAt c.totalConflicts sc.date sc.period = false

/-- The number of scheduled classes on the calendar day `k`. -/
def countsOf (classes : List ScheduledClass) (k : Nat) : Nat :=
  (classes.filter fun sc => dayKey sc.date == k).length

/-- The per-day cap invariant: no calendar day holds more than `maxPerDay`
scheduled classes. -/
def withinDailyCap (maxPerDay : Nat) (classes : List ScheduledClass) : Prop :=
  ∀ k, countsOf classes k ≤ maxPerDay

/-! Concrete fixtures used by the counterexamples and witnesses below. -/

/-- A conflict-free class item. -/
def exA : Class :=
  { id := "a", name := "A", gradeLevel := "1", gradeGroup := "g", teacher := "t"
    totalConflicts := [], partialConflicts := [] }

/-- A second conflict-free class item. -/
def exB : Class :=
  { id := "b", name := "B", gradeLevel := "1", gradeGroup := "g", teacher := "t"
    totalConflicts := [], partialConflicts := [] }

/-- A small constraint record: two periods per day, two classes per day. -/
def exK : ScheduleConstraints :=
  { maxPeriodsPerDay := 2, maxClassesPerDay := 2, maxConsecutivePeriods := 2
    requiredBreakLength := 1 }

/-- A two-class engine starting at the epoch. -/
def exEng : ScheduleEngine := { classes := [exA, exB], startDate := 0, constraints := exK }

/-- A placement oracle whose shuffles are the identity permutations and whose
0.99 coin always fires. -/
def exPo : PlaceOracle :=
  { shuffledDates := getDateRange 0 14, shuffledPeriods := [1, 2]
    coin := fun _ _ => true }

/-- A mutation oracle that picks index 0 and scans days in calendar order,
so it relocates the first class onto its own slot (a no-move mutation). -/
def exMoStay : MutOracle :=
  { randIndex := 0, shuffledDates := getDateRange 0 14, shuffledPeriods := [1, 2]
    coin := fun _ _ => true }

/-- A mutation oracle that picks index 1 and scans day 1 first, moving the
second class to the second calendar day. -/
def exMoMove : MutOracle :=
  { randIndex := 1 / 2, shuffledDates := (getDateRange 0 14).drop 1 ++ [0]
    shuffledPeriods := [1, 2], coin := fun _ _ => true }

/-- A run oracle under which every mutation is a no-move and the Metropolis
coin never fires: the run stalls and returns its initial solution. -/
def exStallRo : RunOracle :=
  { init := fun _ => exPo, mutAt := fun _ => exMoStay, metro := fun _ => false }

/-- A run oracle that accepts the first candidate (a move of the second
class to day 1, worsening the aggregate) and then only produces no-move
mutations: the run stalls and returns the worsened schedule. -/
def exRoC2 : RunOracle :=
  { init := fun _ => exPo
    mutAt := fun it => if it = 0 then exMoMove else exMoStay
    metro := fun _ => true }

/-- The schedule after the first mutation of the `exRoC2` run: the second
class has moved to day 1. -/
def exS1 : Schedule :=
  { classes := [mkScheduled exA 0 1, mkScheduled exB dayMs 1]
    score := calculateScore exEng [mkScheduled exA 0 1, mkScheduled exB dayMs 1] }

/-- An elementary-group class item. -/
def exElem1 : Class := { exA with gradeGroup := "elementary" }

/-- A middle-group class item. -/
def exMid1 : Class := { exB with gradeGroup := "middle" }

/-- A second elementary-group class item. -/
def exElem2 : Class := { exA with id := "c", name := "C", gradeGroup := "elementary" }

/-- A second middle-group class item. -/
def exMid2 : Class := { exB with id := "d", name := "D", gradeGroup := "middle" }

/-- A four-class engine for the cohesion scenarios. -/
def exEngCoh : ScheduleEngine :=
  { classes := [exElem1, exMid1, exElem2, exMid2], startDate := 0
    constraints := { exK with maxPeriodsPerDay := 4, maxClassesPerDay := 4 } }

/-- A grade-2 class item. -/
def exB2 : Class := { exB with gradeLevel := "2" }

/-- An engine constructed with the `gradeProgression = none` preference. -/
def exEngProgNone : ScheduleEngine :=
  ScheduleEngine.construct [exA, exB2] 0 exK
    { gradeProgression := GradeProgression.none }

/-- A two-class schedule with ascending grades on one day. -/
def exClsProg : List ScheduledClass := [mkScheduled exA 0 1, mkScheduled exB2 0 2]

/-- An invalid constraint record: nine periods per day. -/
def exK9 : ScheduleConstraints :=
  { maxPeriodsPerDay := 9, maxClassesPerDay := 2, maxConsecutivePeriods := 2
    requiredBreakLength := 1 }

/-- An engine constructed from the invalid constraint record. -/
def exEng9 : ScheduleEngine :=
  ScheduleEngine.construct [exA] 0 exK9 { gradeProgression := GradeProgression.none }

/-- A stalling run oracle for the nine-period engine. -/
def exRo9 : RunOracle :=
  { init := fun _ =>
      { shuffledDates := getDateRange 0 14
        shuffledPeriods := (List.range 9).map (· + 1), coin := fun _ _ => true }
    mutAt := fun _ =>
      { randIndex := 0, shuffledDates := getDateRange 0 14
        shuffledPeriods := (List.range 9).map (· + 1), coin := fun _ _ => true }
    metro := fun _ => false }

/-- A class item whose total conflicts cover every slot of a one-period,
fourteen-day window. -/
def exBlocked : Class :=
  { exA with totalConflicts := (List.range 14).map fun i => { date := i * dayMs, period := 1 } }

/-- The engine whose only class can never be placed. -/
def exEngBlocked : ScheduleEngine :=
  { classes := [exBlocked], startDate := 0
    constraints := { exK with maxPeriodsPerDay := 1 } }

/-- A run oracle for the blocked engine. -/
def exRoBlocked : RunOracle :=
  { init := fun _ =>
      { shuffledDates := getDateRange 0 14, shuffledPeriods := [1]
        coin := fun _ _ => true }
    mutAt := fun _ =>
      { randIndex := 0, shuffledDates := getDateRange 0 14, shuffledPeriods := [1]
        coin := fun _ _ => true }
    metro := fun _ => false }

/-- The engine with an empty class catalogue. -/
def exEngEmpty : ScheduleEngine :=
  { classes := [], startDate := 0, constraints := exK }

/-- The error message a failed run surfaces. -/
def exErr : String :=
  "Failed to generate a valid schedule. Please try adjusting the constraints."

/-- A successful run's nonempty schedule. -/
def exRunOk : Schedule :=
  { classes := [mkScheduled exA 0 1], score := calculateScore exEng [mkScheduled exA 0 1] }

/-- Run outcomes where the first run fails and every later run succeeds. -/
def exRunsFirstFails : Nat → Except String Schedule :=
  fun i => if i = 0 then Except.error exErr else Except.ok exRunOk

/-- Run outcomes where every run fails. -/
def exRunsAllFail : Nat → Except String Schedule := fun _ => Except.error exErr

/-- Run outcomes where every run succeeds. -/
def exRunsAllOk : Nat → Except String Schedule := fun _ => Except.ok exRunOk

/-! General lemmas about the annealing loop, shared by several claims. -/

/-- Unfolding of one iteration of the annealing loop. -/
lemma annealLoopFull_succ (eng : ScheduleEngine) (ro : RunOracle)
    (fuel it li : Nat) (cur best : Schedule) (bs : Option ℚ) :
    annealLoopFull eng ro (fuel + 1) it li cur best bs =
      (if stallLimit ≤ it - li then (Option.some best, it, li)
       else
         match mutateSchedule eng (ro.mutAt it) cur with
         | Option.none => (Option.none, it, li)
         | Option.some newSched =>
             if aggregateScore cur.score < aggregateScore newSched.score
                 ∨ ro.metro it = true then
               if gtNegInf (aggregateScore newSched.score) bs then
                 annealLoopFull eng ro fuel (it + 1) it newSched newSched
                   (Option.some (aggregateScore newSched.score))
               else annealLoopFull eng ro fuel (it + 1) li newSched best bs
             else annealLoopFull eng ro fuel (it + 1) li cur best bs) := rfl

/-- One iteration that exits through the stall guard. -/
lemma annealLoopFull_stall (eng : ScheduleEngine) (ro : RunOracle)
    (fuel it li : Nat) (cur best : Schedule) (bs : Option ℚ)
    (hg : stallLimit ≤ it - li) :
    annealLoopFull eng ro (fuel + 1) it li cur best bs =
      (Option.some best, it, li) := by
  rw [annealLoopFull_succ, if_pos hg]

/-- One iteration whose mutation faults. -/
lemma annealLoopFull_fault (eng : ScheduleEngine) (ro : RunOracle)
    (fuel it li : Nat) (cur best : Schedule) (bs : Option ℚ)
    (hg : ¬ stallLimit ≤ it - li)
    (hres : mutateSchedule eng (ro.mutAt it) cur = Option.none) :
    annealLoopFull eng ro (fuel + 1) it li cur best bs =
      (Option.none, it, li) := by
  rw [annealLoopFull_succ, if_neg hg, hres]

/-- One iteration whose mutation produced a candidate schedule. -/
lemma annealLoopFull_step (eng : ScheduleEngine) (ro : RunOracle)
    (fuel it li : Nat) (cur best : Schedule) (bs : Option ℚ)
    (newSched : Schedule) (hg : ¬ stallLimit ≤ it - li)
    (hres : mutateSchedule eng (ro.mutAt it) cur = Option.some newSched) :
    annealLoopFull eng ro (fuel + 1) it li cur best bs =
      (if aggregateScore cur.score < aggregateScore newSched.score
          ∨ ro.metro it = true then
        if gtNegInf (aggregateScore newSched.score) bs = true then
          annealLoopFull eng ro fuel (it + 1) it newSched newSched
            (Option.some (aggregateScore newSched.score))
        else annealLoopFull eng ro fuel (it + 1) li newSched best bs
      else annealLoopFull eng ro fuel (it + 1) li cur best bs) := by
  rw [annealLoopFull_succ, if_neg hg, hres]

/-- When every remaining mutation reproduces the current schedule and no
iteration can improve on the best score so far, the loop returns `best`. -/
lemma annealLoopFull_noop (eng : ScheduleEngine) (ro : RunOracle) (fuel : Nat) :
    ∀ it li cur best bs,
      (∀ j, it ≤ j → mutateSchedule eng (ro.mutAt j) cur = Option.some cur) →
      (∀ j, it ≤ j →
        ro.metro j = false ∨ gtNegInf (aggregateScore cur.score) bs = false) →
      (annealLoopFull eng ro fuel it li cur best bs).1 = Option.some best := by
  induction fuel with
  | zero => intro it li cur best bs _ _; rfl
  | succ n ih =>
      intro it li cur best bs hmut hacc
      by_cases hg : stallLimit ≤ it - li
      · rw [annealLoopFull_stall eng ro n it li cur best bs hg]
      · rw [annealLoopFull_step eng ro n it li cur best bs cur hg
          (hmut it le_rfl)]
        have hlt : ¬ (aggregateScore cur.score < aggregateScore cur.score) :=
          lt_irrefl _
        have ihnext :=
          ih (it + 1) li cur best bs
            (fun j hj => hmut j (Nat.le_of_succ_le hj))
            (fun j hj => hacc j (Nat.le_of_succ_le hj))
        rcases hacc it le_rfl with hmf | hbf
        · rw [if_neg (by simp [hlt, hmf])]
          exact ihnext
        · by_cases hmt : ro.metro it = true
          · rw [if_pos (Or.inr hmt), if_neg (by simp [hbf])]
            exact ihnext
          · rw [if_neg (by simp [hlt, hmt])]
            exact ihnext

/-- Preservation of a schedule invariant through the annealing loop: if
mutation preserves `P`, the loop's result satisfies `P` whenever the current
and best schedules do. -/
lemma annealLoopFull_inv (eng : ScheduleEngine) (ro : RunOracle)
    (P : Schedule → Prop)
    (hstep : ∀ j cur out, P cur →
      mutateSchedule eng (ro.mutAt j) cur = Option.some out → P out)
    (fuel : Nat) :
    ∀ it li cur best bs, P cur → P best →
      ∀ S, (annealLoopFull eng ro fuel it li cur best bs).1 = Option.some S →
        P S := by
  induction fuel with
  | zero =>
      intro it li cur best bs _ hbest S hS
      cases hS
      exact hbest
  | succ n ih =>
      intro it li cur best bs hcur hbest S hS
      by_cases hg : stallLimit ≤ it - li
      · rw [annealLoopFull_stall eng ro n it li cur best bs hg] at hS
        cases hS
        exact hbest
      · cases hres : mutateSchedule eng (ro.mutAt it) cur with
        | none =>
            rw [annealLoopFull_fault eng ro n it li cur best bs hg hres] at hS
            cases hS
        | some newSched =>
            rw [annealLoopFull_step eng ro n it li cur best bs newSched hg hres]
              at hS
            have hnew : P newSched := hstep it cur newSched hcur hres
            by_cases ha : aggregateScore cur.score < aggregateScore newSched.score
                ∨ ro.metro it = true
            · rw [if_pos ha] at hS
              by_cases hb : gtNegInf (aggregateScore newSched.score) bs
              · rw [if_pos hb] at hS
                exact ih (it + 1) it newSched newSched _ hnew hnew S hS
              · rw [if_neg hb] at hS
                exact ih (it + 1) li newSched best bs hnew hbest S hS
            · rw [if_neg ha] at hS
              exact ih (it + 1) li cur best bs hcur hbest S hS

/-- Iteration-count bounds of the annealing loop: the final count lies
between the entry count and the fuel bound, and, unless an iteration
faulted, the loop either ran its full fuel or stopped with the
stall gap exactly at the limit. -/
lemma annealLoopFull_count (eng : ScheduleEngine) (ro : RunOracle)
    (fuel : Nat) :
    ∀ it li cur best bs, li ≤ it → it - li ≤ stallLimit →
      it ≤ (annealLoopFull eng ro fuel it li cur best bs).2.1 ∧
      (annealLoopFull eng ro fuel it li cur best bs).2.1 ≤ it + fuel ∧
      ((annealLoopFull eng ro fuel it li cur best bs).1 = Option.none ∨
        (annealLoopFull eng ro fuel it li cur best bs).2.1 = it + fuel ∨
        (annealLoopFull eng ro fuel it li cur best bs).2.1
          - (annealLoopFull eng ro fuel it li cur best bs).2.2 = stallLimit) := by
  induction fuel with
  | zero =>
      intro it li cur best bs _ _
      exact ⟨le_rfl, (by omega : it ≤ it + 0),
        Or.inr (Or.inl (by omega : it = it + 0))⟩
  | succ n ih =>
      intro it li cur best bs hli hgap
      by_cases hg : stallLimit ≤ it - li
      · rw [annealLoopFull_stall eng ro n it li cur best bs hg]
        exact ⟨le_rfl, (by omega : it ≤ it + (n + 1)),
          Or.inr (Or.inr (by omega : it - li = stallLimit))⟩
      · cases hres : mutateSchedule eng (ro.mutAt it) cur with
        | none =>
            rw [annealLoopFull_fault eng ro n it li cur best bs hg hres]
            exact ⟨le_rfl, (by omega : it ≤ it + (n + 1)), Or.inl rfl⟩
        | some newSched =>
            rw [annealLoopFull_step eng ro n it li cur best bs newSched hg hres]
            by_cases ha : aggregateScore cur.score < aggregateScore newSched.score
                ∨ ro.metro it = true
            · rw [if_pos ha]
              by_cases hb : gtNegInf (aggregateScore newSched.score) bs
              · rw [if_pos hb]
                have h := ih (it + 1) it newSched newSched
                  (Option.some (aggregateScore newSched.score)) (by omega) (by omega)
                obtain ⟨h1, h2, h3⟩ := h
                refine ⟨by omega, by omega, ?_⟩
                rcases h3 with h3 | h3 | h3
                · exact Or.inl h3
                · exact Or.inr (Or.inl (by omega))
                · exact Or.inr (Or.inr h3)
              · rw [if_neg hb]
                have h := ih (it + 1) li newSched best bs (by omega) (by omega)
                obtain ⟨h1, h2, h3⟩ := h
                refine ⟨by omega, by omega, ?_⟩
                rcases h3 with h3 | h3 | h3
                · exact Or.inl h3
                · exact Or.inr (Or.inl (by omega))
                · exact Or.inr (Or.inr h3)
            · rw [if_neg ha]
              have h := ih (it + 1) li cur best bs (by omega) (by omega)
              obtain ⟨h1, h2, h3⟩ := h
              refine ⟨by omega, by omega, ?_⟩
              rcases h3 with h3 | h3 | h3
              · exact Or.inl h3
              · exact Or.inr (Or.inl (by omega))
              · exact Or.inr (Or.inr h3)

/-- A run whose mutations always reproduce the current schedule and whose
Metropolis coin never fires returns the initial solution. -/
lemma generateSchedule_stall (eng : ScheduleEngine) (ro : RunOracle)
    (hmut : ∀ j, mutateSchedule eng (ro.mutAt j) (generateInitialSolution eng ro.init)
      = Option.some (generateInitialSolution eng ro.init))
    (hmetro : ∀ j, ro.metro j = false) :
    ScheduleEngine.generateSchedule eng ro =
      Option.some (generateInitialSolution eng ro.init) :=
  annealLoopFull_noop eng ro MAX_ITERATIONS 0 0
    (generateInitialSolution eng ro.init) (generateInitialSolution eng ro.init)
    Option.none (fun j _ => hmut j) (fun j _ => Or.inl (hmetro j))

/-- Unfolding of `mutateSchedule` at an out-of-bounds index against a
nonempty catalogue: the first invocation of the `find` callback reads `.id`
of the `undefined` drawn entry and throws. -/
lemma mutateSchedule_fault (eng : ScheduleEngine) (mo : MutOracle)
    (s : Schedule) (c : Class) (cs : List Class)
    (hget : s.classes.get? (mutIndex mo s) = Option.none)
    (hcat : eng.classes = c :: cs) :
    mutateSchedule eng mo s = Option.none := by
  unfold mutateSchedule; rw [hget, hcat]

/-- Unfolding of `mutateSchedule` at an out-of-bounds index against an empty
catalogue: `find` never invokes its callback on an empty array, the lookup
misses, and the schedule is returned unchanged. -/
lemma mutateSchedule_unchanged (eng : ScheduleEngine) (mo : MutOracle)
    (s : Schedule)
    (hget : s.classes.get? (mutIndex mo s) = Option.none)
    (hcat : eng.classes = []) :
    mutateSchedule eng mo s = Option.some s := by
  unfold mutateSchedule; rw [hget, hcat]

/-- Unfolding of `mutateSchedule` at an in-bounds index. -/
lemma mutateSchedule_get_some (eng : ScheduleEngine) (mo : MutOracle)
    (s : Schedule) (sc : ScheduledClass)
    (h : s.classes.get? (mutIndex mo s) = Option.some sc) :
    mutateSchedule eng mo s = Option.some (mutResult eng mo s sc) := by
  unfold mutateSchedule; rw [h]

/-- Unfolding of `mutResult` when the moving class's id is not in the
catalogue. -/
lemma mutResult_nofind (eng : ScheduleEngine) (mo : MutOracle) (s : Schedule)
    (sc : ScheduledClass)
    (h : eng.classes.find? (fun c => c.id == sc.id) = Option.none) :
    mutResult eng mo s sc = s := by
  unfold mutResult; rw [h]

/-- Unfolding of `mutResult` when the moving class's id is found. -/
lemma mutResult_found (eng : ScheduleEngine) (mo : MutOracle) (s : Schedule)
    (sc : ScheduledClass) (oc : Class)
    (h : eng.classes.find? (fun c => c.id == sc.id) = Option.some oc) :
    mutResult eng mo s sc =
      mutCommit eng mo s sc
        (mutScanDates oc mo (cpdAfterRemove s sc)
          eng.constraints.maxClassesPerDay mo.shuffledDates Option.none) := by
  unfold mutResult; rw [h]

/-- With an empty catalogue every mutation of an empty assignment is a
no-op, so the annealing loop returns whatever schedule both `cur` and
`best` hold, for every Metropolis stream: even an accepting iteration only
reinstalls the same value as current and best. -/
lemma annealLoopFull_const (eng : ScheduleEngine) (ro : RunOracle)
    (init : Schedule)
    (hmut : ∀ j (cur : Schedule), cur = init →
      mutateSchedule eng (ro.mutAt j) cur = Option.some cur)
    (fuel : Nat) :
    ∀ it li cur best bs, cur = init → best = init →
      (annealLoopFull eng ro fuel it li cur best bs).1
        = Option.some init := by
  induction fuel with
  | zero =>
      intro it li cur best bs _ hbest
      show Option.some best = Option.some init
      rw [hbest]
  | succ n ih =>
      intro it li cur best bs hcur hbest
      by_cases hg : stallLimit ≤ it - li
      · rw [annealLoopFull_stall eng ro n it li cur best bs hg]
        show Option.some best = Option.some init
        rw [hbest]
      · rw [annealLoopFull_step eng ro n it li cur best bs cur hg
          (hmut it cur hcur)]
        by_cases ha : aggregateScore cur.score < aggregateScore cur.score
            ∨ ro.metro it = true
        · rw [if_pos ha]
          by_cases hb : gtNegInf (aggregateScore cur.score) bs = true
          · rw [if_pos hb]
            exact ih (it + 1) it cur cur _ hcur hcur
          · rw [if_neg hb]
            exact ih (it + 1) li cur best bs hcur hbest
        · rw [if_neg ha]
          exact ih (it + 1) li cur best bs hcur hbest

/-- The index `mutateSchedule` draws is in bounds on a nonempty class list,
for any random draw in `[0, 1)`. -/
lemma mutIndex_lt (mo : MutOracle) (s : Schedule)
    (hr0 : 0 ≤ mo.randIndex) (hr1 : mo.randIndex < 1)
    (hne : s.classes ≠ []) : mutIndex mo s < s.classes.length := by
  have hlen : 0 < s.classes.length := List.length_pos.mpr hne
  have hlenq : (0 : ℚ) < (s.classes.length : ℚ) := by exact_mod_cast hlen
  have hq : mo.randIndex * (s.classes.length : ℚ) < (s.classes.length : ℚ) := by
    calc mo.randIndex * (s.classes.length : ℚ)
        < 1 * (s.classes.length : ℚ) := by
          exact mul_lt_mul_of_pos_right hr1 hlenq
      _ = (s.classes.length : ℚ) := one_mul _
  have hfl : Rat.floor (mo.randIndex * (s.classes.length : ℚ))
      < (s.classes.length : ℤ) := by
    by_contra hc
    push_neg at hc
    have : ((s.classes.length : ℤ) : ℚ) ≤ mo.randIndex * (s.classes.length : ℚ) :=
      Rat.le_floor.mp hc
    have : ((s.classes.length : ℕ) : ℚ) ≤ mo.randIndex * (s.classes.length : ℚ) := by
      push_cast at this ⊢
      exact this
    exact absurd (lt_of_le_of_lt this hq) (lt_irrefl _)
  show (Rat.floor (mo.randIndex * (s.classes.length : ℚ))).toNat < s.classes.length
  omega

/-- `mutResult` never changes the number of scheduled classes. -/
lemma mutResult_length (eng : ScheduleEngine) (mo : MutOracle) (s : Schedule)
    (sc : ScheduledClass) :
    (mutResult eng mo s sc).classes.length = s.classes.length := by
  cases hfind : eng.classes.find? (fun c => c.id == sc.id) with
  | none => rw [mutResult_nofind eng mo s sc hfind]
  | some oc =>
      rw [mutResult_found eng mo s sc oc hfind]
      cases hscan : mutScanDates oc mo (cpdAfterRemove s sc)
          eng.constraints.maxClassesPerDay mo.shuffledDates Option.none with
      | none => rfl
      | some dp =>
          cases dp with
          | mk d p => exact List.length_set _ _ _

/-- `mutateSchedule` on a nonempty schedule returns a schedule with the same
number of classes, for any random draw in `[0, 1)`. -/
lemma mutateSchedule_isSome (eng : ScheduleEngine) (mo : MutOracle) (s : Schedule)
    (hr0 : 0 ≤ mo.randIndex) (hr1 : mo.randIndex < 1)
    (hne : s.classes ≠ []) :
    ∃ out, mutateSchedule eng mo s = Option.some out ∧
      out.classes.length = s.classes.length := by
  have hlt := mutIndex_lt mo s hr0 hr1 hne
  have hsc := List.get?_eq_get hlt
  exact ⟨mutResult eng mo s _, mutateSchedule_get_some eng mo s _ hsc,
    mutResult_length eng mo s _⟩

/-- When the random index draws stay in `[0, 1)`, the annealing loop on a
nonempty current schedule never faults. -/
lemma annealLoopFull_isSome (eng : ScheduleEngine) (ro : RunOracle)
    (hrand : ∀ j, 0 ≤ (ro.mutAt j).randIndex ∧ (ro.mutAt j).randIndex < 1)
    (fuel : Nat) :
    ∀ it li cur best bs, cur.classes ≠ [] →
      ((annealLoopFull eng ro fuel it li cur best bs).1).isSome = true := by
  induction fuel with
  | zero => intro it li cur best bs _; rfl
  | succ n ih =>
      intro it li cur best bs hne
      by_cases hg : stallLimit ≤ it - li
      · rw [annealLoopFull_stall eng ro n it li cur best bs hg]; rfl
      · obtain ⟨out, hout, hlen⟩ :=
          mutateSchedule_isSome eng (ro.mutAt it) cur (hrand it).1 (hrand it).2 hne
        rw [annealLoopFull_step eng ro n it li cur best bs out hg hout]
        have hne' : out.classes ≠ [] := by
          intro hcon
          rw [hcon] at hlen
          exact hne (List.eq_nil_of_length_eq_zero hlen.symm)
        by_cases ha : aggregateScore cur.score < aggregateScore out.score
            ∨ ro.metro it = true
        · rw [if_pos ha]
          by_cases hb : gtNegInf (aggregateScore out.score) bs
          · rw [if_pos hb]
            exact ih (it + 1) it out out _ hne'
          · rw [if_neg hb]
            exact ih (it + 1) li out best bs hne'
        · rw [if_neg ha]
          exact ih (it + 1) li cur best bs hne

/-- An empty catalogue yields an empty initial assignment. -/
lemma generateInitialSolution_nil (eng : ScheduleEngine) (po : Nat → PlaceOracle)
    (h : eng.classes = []) : (generateInitialSolution eng po).classes = [] := by
  show buildInitial po eng.constraints.maxClassesPerDay eng.classes 0 [] (fun _ => 0)
    = []
  rw [h]
  rfl

/-- Unfolding of the aggregator's run loop when the current run failed. -/
lemma parallelLoop_error (rr : Nat → Except String Schedule) (total : Nat)
    (i n : Nat) (best : Option (Schedule × ℚ)) (e : String)
    (h : rr i = Except.error e) :
    parallelLoop rr total i (n + 1) best = Except.error e := by
  unfold parallelLoop; rw [h]

/-- Unfolding of the aggregator's run loop when the current run succeeded. -/
lemma parallelLoop_okstep (rr : Nat → Except String Schedule) (total : Nat)
    (i n : Nat) (best : Option (Schedule × ℚ)) (s : Schedule)
    (h : rr i = Except.ok s) :
    parallelLoop rr total i (n + 1) best =
      parallelLoop rr total (i + 1) n
        (match best with
         | Option.none => Option.some (s, runScore total s)
         | Option.some (b, bsc) =>
             if bsc < runScore total s then Option.some (s, runScore total s)
             else Option.some (b, bsc)) := by
  conv_lhs => rw [parallelLoop]
  rw [h]

/-- The run loop of the aggregator returns a schedule when every visited run
succeeded and (when there are no runs) a best was already at hand. -/
lemma parallelLoop_ok (rr : Nat → Except String Schedule) (total : Nat) :
    ∀ rem i best, (∀ j, j < rem → ∃ s, rr (i + j) = Except.ok s) →
      (rem = 0 → ∃ b, best = Option.some b) →
      ∃ s, parallelLoop rr total i rem best = Except.ok (Option.some s) := by
  intro rem
  induction rem with
  | zero =>
      intro i best _ hbest
      obtain ⟨b, hb⟩ := hbest rfl
      exact ⟨b.1, by rw [hb]; rfl⟩
  | succ n ih =>
      intro i best hok _
      obtain ⟨s, hs⟩ := hok 0 (Nat.succ_pos n)
      rw [Nat.add_zero] at hs
      rw [parallelLoop_okstep rr total i n best s hs]
      refine ih (i + 1) _ (fun j hj => ?_) (fun _ => ?_)
      · have hx := hok (j + 1) (by omega)
        rw [show i + (j + 1) = i + 1 + j by omega] at hx
        exact hx
      · cases best with
        | none => exact ⟨(s, runScore total s), rfl⟩
        | some b =>
            cases b with
            | mk b bsc =>
                by_cases hlt : bsc < runScore total s
                · exact ⟨(s, runScore total s), by
                    show (if bsc < runScore total s
                        then Option.some (s, runScore total s)
                        else Option.some (b, bsc)) = _
                    rw [if_pos hlt]⟩
                · exact ⟨(b, bsc), by
                    show (if bsc < runScore total s
                        then Option.some (s, runScore total s)
                        else Option.some (b, bsc)) = _
                    rw [if_neg hlt]⟩

/-! Claim C3 — the cohesion score. -/

/-- Claim C3 counterexample: two classes in different grade groups scheduled
on two different days do not get `gradeGroupCohesion = 1.0`; both groups are
singletons, so the pairwise-distance accumulator never fires and the score is
0. -/
theorem c3_counterexample :
    (calculateScore exEngCoh
      [mkScheduled exElem1 0 1, mkScheduled exMid1 dayMs 1]).gradeGroupCohesion
      ≠ 1 := by
  decide

/-- Claim C3 amended: the Scorer uses the mean-pairwise-time-distance
definition of cohesion, not the per-day-group-count one.  Two classes in
different grade groups on two different days score 0, and four classes split
two-and-two across two grade groups all on the same day score 1. -/
theorem c3_amended :
    (calculateScore exEngCoh
      [mkScheduled exElem1 0 1, mkScheduled exMid1 dayMs 1]).gradeGroupCohesion
      = 0 ∧
    (calculateScore exEngCoh
      [mkScheduled exElem1 0 1, mkScheduled exElem2 0 2,
        mkScheduled exMid1 0 3, mkScheduled exMid2 0 4]).gradeGroupCohesion
      = 1 := by
  constructor <;> decide

/-! Claim C6 — the aggregate weights and the grade-progression preference. -/

/-- Claim C6 counterexample: under the `gradeProgression = none` preference
the engine still computes a nonzero `gradeProgression` component and weighs
it by 0.4, so the aggregate differs from the reduced formula
`1.0·totalLength + 0.5·gradeGroupCohesion + 0.3·distributionQuality
− 100·constraintViolations`. -/
theorem c6_counterexample :
    (calculateScore exEngProgNone exClsProg).gradeProgression ≠ 0 ∧
    aggregateScore (calculateScore exEngProgNone exClsProg) ≠
      (calculateScore exEngProgNone exClsProg).totalLength * 1
        + (calculateScore exEngProgNone exClsProg).gradeGroupCohesion * (1 / 2)
        + (calculateScore exEngProgNone exClsProg).distributionQuality * (3 / 10)
        + (calculateScore exEngProgNone exClsProg).constraintViolations * (-100) := by
  constructor <;> decide

/-- Claim C6 amended: the aggregate is always the weighted sum with weights
`totalLength 1.0, gradeGroupCohesion 0.5, distributionQuality 0.3,
gradeProgression 0.4, constraintViolations −100, partialConflictPenalty 0`;
the preference record is ignored by the constructor, so the 0.4 weight on
`gradeProgression` applies even when the preference is `none`. -/
theorem c6_amended :
    (∀ s : ScheduleScore, aggregateScore s =
      s.totalLength * 1 + s.gradeGroupCohesion * (1 / 2)
        + s.distributionQuality * (3 / 10) + s.constraintViolations * (-100)
        + s.gradeProgression * (2 / 5) + s.partialConflictPenalty * 0) ∧
    (∀ (cs : List Class) (d : Nat) (k : ScheduleConstraints)
        (p p' : SchedulePreferences),
      ScheduleEngine.construct cs d k p = ScheduleEngine.construct cs d k p') :=
  ⟨fun s => by unfold aggregateScore; ring, fun _ _ _ _ _ => rfl⟩

/-! Claim C7 — constraint validation at construction time. -/

/-- Claim C7 counterexample: with constraints that violate the stated
validity conditions (`maxPeriodsPerDay = 9 > 8`), construction does not
raise: it returns an engine whose search runs to completion and schedules a
class, so a usable engine is obtained. -/
theorem c7_counterexample :
    specValidConstraints exK9 = false ∧
    ScheduleEngine.generateSchedule exEng9 exRo9 =
      Option.some (generateInitialSolution exEng9 exRo9.init) ∧
    (generateInitialSolution exEng9 exRo9.init).classes ≠ [] := by
  refine ⟨by decide, ?_, by decide⟩
  have hmut : mutateSchedule exEng9 (exRo9.mutAt 0)
      (generateInitialSolution exEng9 exRo9.init)
      = Option.some (generateInitialSolution exEng9 exRo9.init) := by decide
  exact generateSchedule_stall exEng9 exRo9 (fun j => hmut) (fun j => rfl)

/-- Claim C7 amended: the `ScheduleEngine` constructor performs no
validation at all: for every constraints value, valid or not, it returns the
engine that stores exactly the given catalogue, start date and constraints,
and no `ConfigurationError` exists anywhere in the engine. -/
theorem c7_amended :
    ∀ (cs : List Class) (d : Nat) (k : ScheduleConstraints)
      (p : SchedulePreferences),
      (ScheduleEngine.construct cs d k p).classes = cs ∧
      (ScheduleEngine.construct cs d k p).startDate = d ∧
      (ScheduleEngine.construct cs d k p).constraints = k :=
  fun _ _ _ _ => ⟨rfl, rfl, rfl⟩

/-! Claim C4 — failure isolation in the multi-run aggregator. -/

/-- Claim C4 counterexample: run 0 fails while run 1 succeeds with a
nonempty schedule, yet `ParallelScheduler.generateSchedule` surfaces run 0's
error instead of excluding it from the comparison. -/
theorem c4_counterexample :
    exRunsFirstFails 0 = Except.error exErr ∧
    exRunsFirstFails 1 = Except.ok exRunOk ∧
    exRunOk.classes ≠ [] ∧
    parallelGenerateSchedule [exA, exB] exRunsFirstFails 2 =
      Except.error exErr := by
  refine ⟨rfl, rfl, by decide, ?_⟩
  exact parallelLoop_error exRunsFirstFails 2 0 1 Option.none exErr rfl

/-- Claim C4 amended: the aggregator performs no exclusion.  The first
failing run's error is propagated at once, aborting the remaining runs even
when a later run would succeed; and only when every run succeeds does the
aggregator return a schedule. -/
theorem c4_amended :
    (∀ (cs : List Class) (rr : Nat → Except String Schedule)
        (wc : Nat) (e : String),
      rr 0 = Except.error e → 0 < min wc 8 →
      parallelGenerateSchedule cs rr wc = Except.error e) ∧
    (∀ (cs : List Class) (rr : Nat → Except String Schedule) (wc : Nat),
      0 < min wc 8 → (∀ i, i < min wc 8 → ∃ s, rr i = Except.ok s) →
      ∃ s, parallelGenerateSchedule cs rr wc = Except.ok (Option.some s)) := by
  constructor
  · intro cs rr wc e h0 hpos
    obtain ⟨m, hm⟩ := Nat.exists_eq_succ_of_ne_zero (Nat.pos_iff_ne_zero.mp hpos)
    unfold parallelGenerateSchedule
    rw [hm]
    exact parallelLoop_error rr cs.length 0 m Option.none e h0
  · intro cs rr wc hpos hok
    unfold parallelGenerateSchedule
    refine parallelLoop_ok rr cs.length (min wc 8) 0 Option.none
      (fun j hj => ?_) (fun h0 => absurd h0 (by omega))
    have := hok j (by omega)
    simpa using this

/-- Claim C4 amended, witness: with the first run failing the error is
surfaced, and with every run succeeding a schedule is returned. -/
theorem c4_amended_witness :
    parallelGenerateSchedule [exA] exRunsFirstFails 2 = Except.error exErr ∧
    ∃ s, parallelGenerateSchedule [exA] exRunsAllOk 2 =
      Except.ok (Option.some s) :=
  ⟨c4_amended.1 [exA] exRunsFirstFails 2 exErr rfl (by decide),
    c4_amended.2 [exA] exRunsAllOk 2 (by decide)
      (fun i _ => ⟨exRunOk, rfl⟩)⟩

/-! Claim C9 — termination of the annealing loop. -/

/-- Claim C9: `generateSchedule` is the first component of `annealRun`, the
loop performs at most `MAX_ITERATIONS = 10000` iterations, and whenever an
iteration did not fault the loop either exhausted `MAX_ITERATIONS` or exited
with the gap to `lastImprovement` exactly at the stall limit of 1000
iterations, so a result is produced in finitely many steps. -/
theorem c9_loop_terminates (eng : ScheduleEngine) (ro : RunOracle) :
    ScheduleEngine.generateSchedule eng ro = (annealRun eng ro).1 ∧
    (annealRun eng ro).2.1 ≤ MAX_ITERATIONS ∧
    ((annealRun eng ro).1 = Option.none ∨
      (annealRun eng ro).2.1 = MAX_ITERATIONS ∨
      (annealRun eng ro).2.1 - (annealRun eng ro).2.2 = stallLimit) := by
  have h := annealLoopFull_count eng ro MAX_ITERATIONS 0 0
    (generateInitialSolution eng ro.init) (generateInitialSolution eng ro.init)
    Option.none le_rfl (Nat.zero_le _)
  obtain ⟨h1, h2, h3⟩ := h
  refine ⟨rfl, ?_, ?_⟩
  · unfold annealRun
    omega
  · unfold annealRun
    rcases h3 with h3 | h3 | h3
    · exact Or.inl h3
    · exact Or.inr (Or.inl (by omega))
    · exact Or.inr (Or.inr h3)

/-! Claim C10 — definedness of the search. -/

/-- Claim C10 counterexample: both directions of the claim fail.  A nonempty
catalogue whose only class has a total conflict on every slot of the window
produces an empty initial solution and the first mutation faults, so no
schedule is returned even though the class list is nonempty; and the
empty class list does not fault: the `find` callback is never invoked on an
empty catalogue, every mutation is a no-op, and the run returns the empty
initial schedule. -/
theorem c10_counterexample :
    (exEngBlocked.classes ≠ [] ∧
      ScheduleEngine.generateSchedule exEngBlocked exRoBlocked = Option.none) ∧
    (exEngEmpty.classes = [] ∧
      ScheduleEngine.generateSchedule exEngEmpty exRoBlocked =
        Option.some (generateInitialSolution exEngEmpty exRoBlocked.init) ∧
      (generateInitialSolution exEngEmpty exRoBlocked.init).classes = []) := by
  refine ⟨⟨by decide, by decide⟩, rfl, ?_, by decide⟩
  have hmut : mutateSchedule exEngEmpty (exRoBlocked.mutAt 0)
      (generateInitialSolution exEngEmpty exRoBlocked.init) =
      Option.some (generateInitialSolution exEngEmpty exRoBlocked.init) := by
    decide
  exact generateSchedule_stall exEngEmpty exRoBlocked (fun j => hmut)
    (fun j => rfl)

/-- Claim C10 amended: `generateSchedule` faults exactly when a mutation
draws from an empty assignment while the catalogue is nonempty.  When the
initial solution schedules at least one class (which requires a nonempty
catalogue, so the `totalLength` divisor is nonzero) and the index draws stay
in `[0, 1)`, every mutation indexes in bounds and a schedule is returned.
When the catalogue is empty no fault occurs: the `find` callback is never
invoked, every mutation returns the schedule unchanged, and the run returns
the empty initial schedule (whose `totalLength` was computed with a zero
divisor). -/
theorem c10_amended :
    (∀ (eng : ScheduleEngine) (ro : RunOracle),
      (∀ j, 0 ≤ (ro.mutAt j).randIndex ∧ (ro.mutAt j).randIndex < 1) →
      (generateInitialSolution eng ro.init).classes ≠ [] →
      eng.classes ≠ [] ∧
        (ScheduleEngine.generateSchedule eng ro).isSome = true) ∧
    (∀ (eng : ScheduleEngine) (ro : RunOracle), eng.classes = [] →
      ScheduleEngine.generateSchedule eng ro =
        Option.some (generateInitialSolution eng ro.init)) := by
  constructor
  · intro eng ro hrand hinit
    constructor
    · intro hcls
      exact hinit (generateInitialSolution_nil eng ro.init hcls)
    · exact annealLoopFull_isSome eng ro hrand MAX_ITERATIONS 0 0
        (generateInitialSolution eng ro.init) (generateInitialSolution eng ro.init)
        Option.none hinit
  · intro eng ro hcls
    have hinit : (generateInitialSolution eng ro.init).classes = [] :=
      generateInitialSolution_nil eng ro.init hcls
    have hmut : ∀ j (cur : Schedule),
        cur = generateInitialSolution eng ro.init →
        mutateSchedule eng (ro.mutAt j) cur = Option.some cur := by
      intro j cur hc
      subst hc
      refine mutateSchedule_unchanged eng (ro.mutAt j) _ ?_ hcls
      rw [hinit]
      cases mutIndex (ro.mutAt j) (generateInitialSolution eng ro.init) <;> rfl
    exact annealLoopFull_const eng ro (generateInitialSolution eng ro.init)
      hmut MAX_ITERATIONS 0 0 _ _ Option.none rfl rfl

/-- Claim C10 amended, witness: a run on a one-class engine with valid index
draws returns a schedule, and the empty-catalogue run returns its empty
initial solution. -/
theorem c10_amended_witness :
    ((ScheduleEngine.generateSchedule exEng9 exRo9).isSome = true) ∧
    ScheduleEngine.generateSchedule
      { classes := [], startDate := 0, constraints := exK } exStallRo
      = Option.some (generateInitialSolution
          { classes := [], startDate := 0, constraints := exK } exStallRo.init) :=
  ⟨(c10_amended.1 exEng9 exRo9
      (fun j => ⟨by show (0:ℚ) ≤ 0; norm_num, by show (0:ℚ) < 1; norm_num⟩)
      (by decide)).2,
    c10_amended.2 { classes := [], startDate := 0, constraints := exK }
      exStallRo rfl⟩

/-! Claim C8 — the frame property of mutation. -/

/-- Claim C8: whenever `mutateSchedule` returns a schedule, the input value
is untouched (the embedding is a pure function of it, as the source copies
the class array before writing), the returned schedule has the same number
of entries and agrees with the input at every index other than the drawn
one, the entry at the drawn index can differ only in its date and period,
and when no legal destination slot exists (the scan returns no best slot)
the returned assignment equals the input's. -/
theorem c8_mutation_frame (eng : ScheduleEngine) (mo : MutOracle)
    (s out : Schedule) (h : mutateSchedule eng mo s = Option.some out) :
    out.classes.length = s.classes.length ∧
    (∀ j, j ≠ mutIndex mo s → out.classes.get? j = s.classes.get? j) ∧
    (∀ sc, s.classes.get? (mutIndex mo s) = Option.some sc →
      ∃ sc', out.classes.get? (mutIndex mo s) = Option.some sc' ∧
        sc'.id = sc.id ∧ sc'.name = sc.name ∧ sc'.gradeLevel = sc.gradeLevel ∧
        sc'.gradeGroup = sc.gradeGroup ∧ sc'.teacher = sc.teacher ∧
        sc'.totalConflicts = sc.totalConflicts ∧
        sc'.partialConflicts = sc.partialConflicts) ∧
    (∀ sc oc, s.classes.get? (mutIndex mo s) = Option.some sc →
      eng.classes.find? (fun c => c.id == sc.id) = Option.some oc →
      mutScanDates oc mo (cpdAfterRemove s sc) eng.constraints.maxClassesPerDay
        mo.shuffledDates Option.none = Option.none →
      out.classes = s.classes) := by
  by_cases hnone : s.classes.get? (mutIndex mo s) = Option.none
  · by_cases hcat : eng.classes = []
    · have hout : out = s := (Option.some.inj
        ((mutateSchedule_unchanged eng mo s hnone hcat).symm.trans h)).symm
      subst hout
      refine ⟨rfl, fun j _ => rfl, ?_, ?_⟩
      · intro sc h₂
        exact Option.noConfusion (hnone.symm.trans h₂)
      · intro sc oc h₂ h₃ h₄
        exact Option.noConfusion (hnone.symm.trans h₂)
    · obtain ⟨c, cs, hcat'⟩ := List.exists_cons_of_ne_nil hcat
      exact Option.noConfusion
        ((mutateSchedule_fault eng mo s c cs hnone hcat').symm.trans h)
  obtain ⟨sc, hget⟩ := Option.ne_none_iff_exists'.mp hnone
  rw [mutateSchedule_get_some eng mo s sc hget] at h
  have hout : out = mutResult eng mo s sc := (Option.some.inj h).symm
  subst hout
  have hsc_fix : ∀ sc₂, s.classes.get? (mutIndex mo s) = Option.some sc₂ →
      sc₂ = sc := fun sc₂ h₂ => (Option.some.inj (hget.symm.trans h₂)).symm
  cases hfind : eng.classes.find? (fun c => c.id == sc.id) with
  | none =>
      rw [mutResult_nofind eng mo s sc hfind]
      exact ⟨rfl, fun j _ => rfl, fun sc₂ h₂ => ⟨sc₂, h₂, rfl, rfl, rfl, rfl,
        rfl, rfl, rfl⟩, fun sc₂ oc₂ h₂ hfind₂ _ => by
          have hsc₂ := hsc_fix sc₂ h₂
          subst hsc₂
          rw [hfind₂] at hfind⟩
  | some oc =>
      rw [mutResult_found eng mo s sc oc hfind]
      cases hscan : mutScanDates oc mo (cpdAfterRemove s sc)
          eng.constraints.maxClassesPerDay mo.shuffledDates Option.none with
      | none =>
          refine ⟨rfl, fun j _ => rfl, fun sc₂ h₂ => ⟨sc₂, h₂, rfl, rfl, rfl,
            rfl, rfl, rfl, rfl⟩, fun _ _ _ _ _ => rfl⟩
      | some dp =>
          cases dp with
          | mk d p =>
              have hlt : mutIndex mo s < s.classes.length := by
                obtain ⟨hl, _⟩ := List.get?_eq_some.mp hget
                exact hl
              refine ⟨List.length_set _ _ _, ?_, ?_, ?_⟩
              · intro j hj
                exact List.get?_set_ne _ _ (fun hh => hj hh.symm)
              · intro sc₂ h₂
                have hsc₂ := hsc_fix sc₂ h₂
                subst hsc₂
                refine ⟨{ sc₂ with date := d, period := p }, ?_,
                  rfl, rfl, rfl, rfl, rfl, rfl, rfl⟩
                exact List.get?_set_eq_of_lt _ hlt
              · intro sc₂ oc₂ h₂ hfind₂ hscan₂
                have hsc₂ := hsc_fix sc₂ h₂
                subst hsc₂
                have hoc₂ : oc₂ = oc :=
                  Option.some.inj (hfind₂.symm.trans hfind)
                subst hoc₂
                rw [hscan] at hscan₂
                cases hscan₂

/-- Claim C8, witness: a concrete mutation on the two-class engine returns a
schedule satisfying every clause of the frame property. -/
theorem c8_mutation_frame_witness :
    (mutResult exEng exMoMove (generateInitialSolution exEng (fun _ => exPo))
        (mkScheduled exB 0 1)).classes.length
      = (generateInitialSolution exEng (fun _ => exPo)).classes.length ∧
    (mutResult exEng exMoMove (generateInitialSolution exEng (fun _ => exPo))
        (mkScheduled exB 0 1)).classes.get? 0
      = (generateInitialSolution exEng (fun _ => exPo)).classes.get? 0 := by
  have h : mutateSchedule exEng exMoMove
      (generateInitialSolution exEng (fun _ => exPo))
      = Option.some (mutResult exEng exMoMove
          (generateInitialSolution exEng (fun _ => exPo))
          (mkScheduled exB 0 1)) := by
    refine mutateSchedule_get_some exEng exMoMove _ _ ?_
    decide
  have hc := c8_mutation_frame exEng exMoMove
    (generateInitialSolution exEng (fun _ => exPo)) _ h
  exact ⟨hc.1, hc.2.1 0 (by decide)⟩

/-! Claim C2 — best-so-far tracking in the annealing loop. -/

/-- Claim C2 counterexample: a run exists whose returned schedule has a
strictly smaller aggregate score than its own initial solution.  The first
candidate worsens the aggregate, is accepted by the Metropolis coin, and
replaces `best` because `bestScore` starts at `-Infinity` rather than at the
initial solution's aggregate; the run then stalls and returns it. -/
theorem c2_counterexample :
    ScheduleEngine.generateSchedule exEng exRoC2 = Option.some exS1 ∧
    aggregateScore exS1.score <
      aggregateScore (generateInitialSolution exEng exRoC2.init).score := by
  have hmut0 : mutateSchedule exEng (exRoC2.mutAt 0)
      (generateInitialSolution exEng exRoC2.init) = Option.some exS1 := by decide
  have hmutS : ∀ j, 1 ≤ j →
      mutateSchedule exEng (exRoC2.mutAt j) exS1 = Option.some exS1 := by
    intro j hj
    show mutateSchedule exEng (if j = 0 then exMoMove else exMoStay) exS1
      = Option.some exS1
    rw [if_neg (by omega)]
    decide
  constructor
  · show (annealLoopFull exEng exRoC2 MAX_ITERATIONS 0 0
      (generateInitialSolution exEng exRoC2.init)
      (generateInitialSolution exEng exRoC2.init) Option.none).1
      = Option.some exS1
    rw [show MAX_ITERATIONS = 9999 + 1 from rfl]
    rw [annealLoopFull_step exEng exRoC2 9999 0 0 _ _ Option.none exS1
      (by decide) hmut0]
    have hacc0 : aggregateScore (generateInitialSolution exEng exRoC2.init).score
        < aggregateScore exS1.score ∨ exRoC2.metro 0 = true :=
      Or.inr (by decide)
    have hgt0 : gtNegInf (aggregateScore exS1.score) Option.none = true := rfl
    rw [if_pos hacc0, if_pos hgt0]
    exact annealLoopFull_noop exEng exRoC2 9999 1 0 exS1 exS1
      (Option.some (aggregateScore exS1.score)) (fun j hj => hmutS j hj)
      (fun j _ => Or.inr (by simp [gtNegInf]))
  · decide

/-- Claim C2 amended: within one iteration of the annealing loop, `best` is
replaced by the candidate exactly when the candidate was accepted into
`current` (score strictly above the current score, or the Metropolis coin
fired) AND its aggregate strictly exceeds the running best score, whose
initial value is `-Infinity` — not "regardless of acceptance", and not
compared against the best schedule's own aggregate.  Consequently the
returned schedule need not beat every schedule encountered; it can even be
worse than the initial solution. -/
theorem c2_amended (eng : ScheduleEngine) (ro : RunOracle) (it li : Nat)
    (cur best : Schedule) (bs : Option ℚ) (newSched : Schedule)
    (hg : ¬ stallLimit ≤ it - li)
    (hres : mutateSchedule eng (ro.mutAt it) cur = Option.some newSched) :
    (annealLoopFull eng ro 1 it li cur best bs).1 =
      Option.some
        (if (aggregateScore cur.score < aggregateScore newSched.score
              ∨ ro.metro it = true)
            ∧ gtNegInf (aggregateScore newSched.score) bs = true
         then newSched else best) := by
  rw [show (1 : Nat) = 0 + 1 from rfl]
  rw [annealLoopFull_step eng ro 0 it li cur best bs newSched hg hres]
  by_cases ha : aggregateScore cur.score < aggregateScore newSched.score
      ∨ ro.metro it = true
  · rw [if_pos ha]
    by_cases hb : gtNegInf (aggregateScore newSched.score) bs = true
    · rw [if_pos hb, if_pos ⟨ha, hb⟩]
      rfl
    · rw [if_neg hb, if_neg (fun hc => hb hc.2)]
      rfl
  · rw [if_neg ha, if_neg (fun hc => ha hc.1)]
    rfl

/-- Claim C2 amended, witness: the characterization applied to the first
iteration of the `exRoC2` run, where the accepted worse candidate replaces
`best` because the best score starts at `-Infinity`. -/
theorem c2_amended_witness :
    (annealLoopFull exEng exRoC2 1 0 0
      (generateInitialSolution exEng exRoC2.init)
      (generateInitialSolution exEng exRoC2.init) Option.none).1 =
      Option.some
        (if (aggregateScore (generateInitialSolution exEng exRoC2.init).score
              < aggregateScore exS1.score ∨ exRoC2.metro 0 = true)
            ∧ gtNegInf (aggregateScore exS1.score) Option.none = true
         then exS1 else generateInitialSolution exEng exRoC2.init) :=
  c2_amended exEng exRoC2 0 0
    (generateInitialSolution exEng exRoC2.init)
    (generateInitialSolution exEng exRoC2.init) Option.none exS1
    (by decide) (by decide)

/-! Lemmas about the slot scans, shared by the placement invariants. -/

/-- The remembered best slot is either the old one or the scanned slot. -/
lemma orElseSlot_some (bs : Option (Nat × Nat)) (d p : Nat) (dp : Nat × Nat)
    (h : orElseSlot bs d p = Option.some dp) :
    bs = Option.some dp ∨ dp = (d, p) := by
  cases bs with
  | none => exact Or.inr (Option.some.inj h).symm
  | some b => exact Or.inl h

/-- Unfolding of the initial builder's period scan on a cons cell. -/
lemma initScanPeriods_cons (cls : Class) (coin : Nat → Nat → Bool)
    (d p : Nat) (ps : List Nat) (bs : Option (Nat × Nat)) :
    initScanPeriods cls coin d (p :: ps) bs =
      if hasTotalConflictAt cls.totalConflicts d p then
        initScanPeriods cls coin d ps bs
      else if coin d p then (orElseSlot bs d p, Option.some (d, p))
      else initScanPeriods cls coin d ps (orElseSlot bs d p) := rfl

/-- Both outputs of the period scan are conflict-free slots whenever the
incoming best slot is. -/
lemma initScanPeriods_free (cls : Class) (coin : Nat → Nat → Bool) (d : Nat) :
    ∀ (ps : List Nat) (bs : Option (Nat × Nat)),
      (∀ dp, bs = Option.some dp →
        hasTotalConflictAt cls.totalConflicts dp.1 dp.2 = false) →
      (∀ dp, (initScanPeriods cls coin d ps bs).1 = Option.some dp →
        hasTotalConflictAt cls.totalConflicts dp.1 dp.2 = false) ∧
      (∀ dp, (initScanPeriods cls coin d ps bs).2 = Option.some dp →
        hasTotalConflictAt cls.totalConflicts dp.1 dp.2 = false) := by
  intro ps
  induction ps with
  | nil =>
      intro bs hbs
      exact ⟨fun dp h => hbs dp h, fun dp h => by cases h⟩
  | cons p ps ih =>
      intro bs hbs
      rw [initScanPeriods_cons]
      by_cases hc : hasTotalConflictAt cls.totalConflicts d p = true
      · rw [if_pos hc]
        exact ih bs hbs
      · have hcf : hasTotalConflictAt cls.totalConflicts d p = false := by
          cases hcb : hasTotalConflictAt cls.totalConflicts d p with
          | true => exact absurd hcb hc
          | false => rfl
        have hbs' : ∀ dp, orElseSlot bs d p = Option.some dp →
            hasTotalConflictAt cls.totalConflicts dp.1 dp.2 = false := by
          intro dp h
          rcases orElseSlot_some bs d p dp h with h' | h'
          · exact hbs dp h'
          · rw [h']; exact hcf
        rw [if_neg hc]
        by_cases hcoin : coin d p = true
        · rw [if_pos hcoin]
          refine ⟨fun dp h => hbs' dp h, fun dp h => ?_⟩
          have hdp : (d, p) = dp := Option.some.inj h
          rw [← hdp]
          exact hcf
        · rw [if_neg hcoin]
          exact ih (orElseSlot bs d p) hbs'

/-- Both outputs of the period scan are either the incoming best slot or a
slot on the scanned date. -/
lemma initScanPeriods_day (cls : Class) (coin : Nat → Nat → Bool) (d : Nat) :
    ∀ (ps : List Nat) (bs : Option (Nat × Nat)),
      (∀ dp, (initScanPeriods cls coin d ps bs).1 = Option.some dp →
        bs = Option.some dp ∨ dp.1 = d) ∧
      (∀ dp, (initScanPeriods cls coin d ps bs).2 = Option.some dp →
        dp.1 = d) := by
  intro ps
  induction ps with
  | nil =>
      intro bs
      exact ⟨fun dp h => Or.inl h, fun dp h => by cases h⟩
  | cons p ps ih =>
      intro bs
      rw [initScanPeriods_cons]
      by_cases hc : hasTotalConflictAt cls.totalConflicts d p = true
      · rw [if_pos hc]
        exact ih bs
      · rw [if_neg hc]
        by_cases hcoin : coin d p = true
        · rw [if_pos hcoin]
          refine ⟨fun dp h => ?_, fun dp h => ?_⟩
          · rcases orElseSlot_some bs d p dp h with h' | h'
            · exact Or.inl h'
            · exact Or.inr (by rw [h'])
          · have hdp : (d, p) = dp := Option.some.inj h
            rw [← hdp]
        · rw [if_neg hcoin]
          obtain ⟨ih1, ih2⟩ := ih (orElseSlot bs d p)
          refine ⟨fun dp h => ?_, ih2⟩
          rcases ih1 dp h with h' | h'
          · rcases orElseSlot_some bs d p dp h' with h'' | h''
            · exact Or.inl h''
            · exact Or.inr (by rw [h''])
          · exact Or.inr h'

/-- Unfolding of the initial builder's date scan on a skipped (full) date. -/
lemma initScanDates_cons_skip (cls : Class) (po : PlaceOracle) (cpd : Nat → Nat)
    (m d : Nat) (ds : List Nat) (bs : Option (Nat × Nat))
    (hday : m ≤ cpd (dayKey d)) :
    initScanDates cls po cpd m (d :: ds) bs =
      initScanDates cls po cpd m ds bs := by
  conv_lhs => rw [initScanDates]
  rw [if_pos hday]

/-- Unfolding of the initial builder's date scan on a visited date. -/
lemma initScanDates_cons_go (cls : Class) (po : PlaceOracle) (cpd : Nat → Nat)
    (m d : Nat) (ds : List Nat) (bs : Option (Nat × Nat))
    (hday : ¬ m ≤ cpd (dayKey d)) :
    initScanDates cls po cpd m (d :: ds) bs =
      (match initScanPeriods cls po.coin d po.shuffledPeriods bs with
       | (bs', Option.some a) => (bs', Option.some a)
       | (bs', Option.none) => initScanDates cls po cpd m ds bs') := by
  conv_lhs => rw [initScanDates]
  rw [if_neg hday]

/-- Both outputs of the date scan are conflict-free slots whenever the
incoming best slot is. -/
lemma initScanDates_free (cls : Class) (po : PlaceOracle) (cpd : Nat → Nat)
    (m : Nat) :
    ∀ (ds : List Nat) (bs : Option (Nat × Nat)),
      (∀ dp, bs = Option.some dp →
        hasTotalConflictAt cls.totalConflicts dp.1 dp.2 = false) →
      (∀ dp, (initScanDates cls po cpd m ds bs).1 = Option.some dp →
        hasTotalConflictAt cls.totalConflicts dp.1 dp.2 = false) ∧
      (∀ dp, (initScanDates cls po cpd m ds bs).2 = Option.some dp →
        hasTotalConflictAt cls.totalConflicts dp.1 dp.2 = false) := by
  intro ds
  induction ds with
  | nil =>
      intro bs hbs
      exact ⟨fun dp h => hbs dp h, fun dp h => by cases h⟩
  | cons d ds ih =>
      intro bs hbs
      by_cases hday : m ≤ cpd (dayKey d)
      · rw [initScanDates_cons_skip cls po cpd m d ds bs hday]
        exact ih bs hbs
      · obtain ⟨h1, h2⟩ :=
          initScanPeriods_free cls po.coin d po.shuffledPeriods bs hbs
        cases hps : initScanPeriods cls po.coin d po.shuffledPeriods bs with
        | mk bs' acc =>
            rw [hps] at h1 h2
            cases acc with
            | none =>
                have hgo : initScanDates cls po cpd m (d :: ds) bs =
                    initScanDates cls po cpd m ds bs' := by
                  rw [initScanDates_cons_go cls po cpd m d ds bs hday, hps]
                rw [hgo]
                exact ih bs' (fun dp h => h1 dp h)
            | some a =>
                have hgo : initScanDates cls po cpd m (d :: ds) bs =
                    (bs', Option.some a) := by
                  rw [initScanDates_cons_go cls po cpd m d ds bs hday, hps]
                rw [hgo]
                exact ⟨fun dp h => h1 dp h, fun dp h => h2 dp h⟩

/-- Both outputs of the date scan land on days under the cap whenever the
incoming best slot does. -/
lemma initScanDates_cap (cls : Class) (po : PlaceOracle) (cpd : Nat → Nat)
    (m : Nat) :
    ∀ (ds : List Nat) (bs : Option (Nat × Nat)),
      (∀ dp, bs = Option.some dp → cpd (dayKey dp.1) < m) →
      (∀ dp, (initScanDates cls po cpd m ds bs).1 = Option.some dp →
        cpd (dayKey dp.1) < m) ∧
      (∀ dp, (initScanDates cls po cpd m ds bs).2 = Option.some dp →
        cpd (dayKey dp.1) < m) := by
  intro ds
  induction ds with
  | nil =>
      intro bs hbs
      exact ⟨fun dp h => hbs dp h, fun dp h => by cases h⟩
  | cons d ds ih =>
      intro bs hbs
      by_cases hday : m ≤ cpd (dayKey d)
      · rw [initScanDates_cons_skip cls po cpd m d ds bs hday]
        exact ih bs hbs
      · obtain ⟨hd1, hd2⟩ := initScanPeriods_day cls po.coin d po.shuffledPeriods bs
        have hbs' : ∀ dp,
            (initScanPeriods cls po.coin d po.shuffledPeriods bs).1
              = Option.some dp → cpd (dayKey dp.1) < m := by
          intro dp h
          rcases hd1 dp h with h' | h'
          · exact hbs dp h'
          · rw [h']; omega
        have hacc' : ∀ dp,
            (initScanPeriods cls po.coin d po.shuffledPeriods bs).2
              = Option.some dp → cpd (dayKey dp.1) < m := by
          intro dp h
          rw [hd2 dp h]; omega
        cases hps : initScanPeriods cls po.coin d po.shuffledPeriods bs with
        | mk bs' acc =>
            rw [hps] at hbs' hacc'
            cases acc with
            | none =>
                have hgo : initScanDates cls po cpd m (d :: ds) bs =
                    initScanDates cls po cpd m ds bs' := by
                  rw [initScanDates_cons_go cls po cpd m d ds bs hday, hps]
                rw [hgo]
                exact ih bs' (fun dp h => hbs' dp h)
            | some a =>
                have hgo : initScanDates cls po cpd m (d :: ds) bs =
                    (bs', Option.some a) := by
                  rw [initScanDates_cons_go cls po cpd m d ds bs hday, hps]
                rw [hgo]
                exact ⟨fun dp h => hbs' dp h, fun dp h => hacc' dp h⟩

/-- Unfolding of the mutator's period scan on a cons cell. -/
lemma mutScanPeriods_cons (oc : Class) (coin : Nat → Nat → Bool)
    (d p : Nat) (ps : List Nat) (bs : Option (Nat × Nat)) :
    mutScanPeriods oc coin d (p :: ps) bs =
      if hasTotalConflictAt oc.totalConflicts d p then
        mutScanPeriods oc coin d ps bs
      else if coin d p then (orElseSlot bs d p, true)
      else mutScanPeriods oc coin d ps (orElseSlot bs d p) := rfl

/-- The best slot of the mutator's period scan is conflict-free whenever the
incoming one is. -/
lemma mutScanPeriods_free (oc : Class) (coin : Nat → Nat → Bool) (d : Nat) :
    ∀ (ps : List Nat) (bs : Option (Nat × Nat)),
      (∀ dp, bs = Option.some dp →
        hasTotalConflictAt oc.totalConflicts dp.1 dp.2 = false) →
      ∀ dp, (mutScanPeriods oc coin d ps bs).1 = Option.some dp →
        hasTotalConflictAt oc.totalConflicts dp.1 dp.2 = false := by
  intro ps
  induction ps with
  | nil => intro bs hbs dp h; exact hbs dp h
  | cons p ps ih =>
      intro bs hbs
      rw [mutScanPeriods_cons]
      by_cases hc : hasTotalConflictAt oc.totalConflicts d p = true
      · rw [if_pos hc]
        exact ih bs hbs
      · have hcf : hasTotalConflictAt oc.totalConflicts d p = false := by
          cases hcb : hasTotalConflictAt oc.totalConflicts d p with
          | true => exact absurd hcb hc
          | false => rfl
        have hbs' : ∀ dp, orElseSlot bs d p = Option.some dp →
            hasTotalConflictAt oc.totalConflicts dp.1 dp.2 = false := by
          intro dp h
          rcases orElseSlot_some bs d p dp h with h' | h'
          · exact hbs dp h'
          · rw [h']; exact hcf
        rw [if_neg hc]
        by_cases hcoin : coin d p = true
        · rw [if_pos hcoin]
          exact fun dp h => hbs' dp h
        · rw [if_neg hcoin]
          exact ih (orElseSlot bs d p) hbs'

/-- The best slot of the mutator's period scan is the incoming one or a slot
on the scanned date. -/
lemma mutScanPeriods_day (oc : Class) (coin : Nat → Nat → Bool) (d : Nat) :
    ∀ (ps : List Nat) (bs : Option (Nat × Nat)),
      ∀ dp, (mutScanPeriods oc coin d ps bs).1 = Option.some dp →
        bs = Option.some dp ∨ dp.1 = d := by
  intro ps
  induction ps with
  | nil => intro bs dp h; exact Or.inl h
  | cons p ps ih =>
      intro bs
      rw [mutScanPeriods_cons]
      by_cases hc : hasTotalConflictAt oc.totalConflicts d p = true
      · rw [if_pos hc]
        exact ih bs
      · rw [if_neg hc]
        by_cases hcoin : coin d p = true
        · rw [if_pos hcoin]
          intro dp h
          rcases orElseSlot_some bs d p dp h with h' | h'
          · exact Or.inl h'
          · exact Or.inr (by rw [h'])
        · rw [if_neg hcoin]
          intro dp h
          rcases ih (orElseSlot bs d p) dp h with h' | h'
          · rcases orElseSlot_some bs d p dp h' with h'' | h''
            · exact Or.inl h''
            · exact Or.inr (by rw [h''])
          · exact Or.inr h'

/-- Unfolding of the mutator's date scan on a skipped (full) date. -/
lemma mutScanDates_cons_skip (oc : Class) (mo : MutOracle) (cpd : Nat → Nat)
    (m d : Nat) (ds : List Nat) (bs : Option (Nat × Nat))
    (hday : m ≤ cpd (dayKey d)) :
    mutScanDates oc mo cpd m (d :: ds) bs = mutScanDates oc mo cpd m ds bs := by
  conv_lhs => rw [mutScanDates]
  rw [if_pos hday]

/-- Unfolding of the mutator's date scan on a visited date. -/
lemma mutScanDates_cons_go (oc : Class) (mo : MutOracle) (cpd : Nat → Nat)
    (m d : Nat) (ds : List Nat) (bs : Option (Nat × Nat))
    (hday : ¬ m ≤ cpd (dayKey d)) :
    mutScanDates oc mo cpd m (d :: ds) bs =
      (match mutScanPeriods oc mo.coin d mo.shuffledPeriods bs with
       | (bs', true) => bs'
       | (bs', false) => mutScanDates oc mo cpd m ds bs') := by
  conv_lhs => rw [mutScanDates]
  rw [if_neg hday]

/-- The mutator's date scan only returns conflict-free slots, given a
conflict-free incoming best slot. -/
lemma mutScanDates_free (oc : Class) (mo : MutOracle) (cpd : Nat → Nat)
    (m : Nat) :
    ∀ (ds : List Nat) (bs : Option (Nat × Nat)),
      (∀ dp, bs = Option.some dp →
        hasTotalConflictAt oc.totalConflicts dp.1 dp.2 = false) →
      ∀ dp, mutScanDates oc mo cpd m ds bs = Option.some dp →
        hasTotalConflictAt oc.totalConflicts dp.1 dp.2 = false := by
  intro ds
  induction ds with
  | nil => intro bs hbs dp h; exact hbs dp h
  | cons d ds ih =>
      intro bs hbs
      by_cases hday : m ≤ cpd (dayKey d)
      · rw [mutScanDates_cons_skip oc mo cpd m d ds bs hday]
        exact ih bs hbs
      · have h1 := mutScanPeriods_free oc mo.coin d mo.shuffledPeriods bs hbs
        cases hps : mutScanPeriods oc mo.coin d mo.shuffledPeriods bs with
        | mk bs' stop =>
            rw [hps] at h1
            cases stop with
            | true =>
                have hgo : mutScanDates oc mo cpd m (d :: ds) bs = bs' := by
                  rw [mutScanDates_cons_go oc mo cpd m d ds bs hday, hps]
                rw [hgo]
                exact fun dp h => h1 dp h
            | false =>
                have hgo : mutScanDates oc mo cpd m (d :: ds) bs =
                    mutScanDates oc mo cpd m ds bs' := by
                  rw [mutScanDates_cons_go oc mo cpd m d ds bs hday, hps]
                rw [hgo]
                exact ih bs' (fun dp h => h1 dp h)

/-- The mutator's date scan only returns slots on days under the cap, given
an incoming best slot under the cap. -/
lemma mutScanDates_cap (oc : Class) (mo : MutOracle) (cpd : Nat → Nat)
    (m : Nat) :
    ∀ (ds : List Nat) (bs : Option (Nat × Nat)),
      (∀ dp, bs = Option.some dp → cpd (dayKey dp.1) < m) →
      ∀ dp, mutScanDates oc mo cpd m ds bs = Option.some dp →
        cpd (dayKey dp.1) < m := by
  intro ds
  induction ds with
  | nil => intro bs hbs dp h; exact hbs dp h
  | cons d ds ih =>
      intro bs hbs
      by_cases hday : m ≤ cpd (dayKey d)
      · rw [mutScanDates_cons_skip oc mo cpd m d ds bs hday]
        exact ih bs hbs
      · have hd := mutScanPeriods_day oc mo.coin d mo.shuffledPeriods bs
        have hbs' : ∀ dp,
            (mutScanPeriods oc mo.coin d mo.shuffledPeriods bs).1
              = Option.some dp → cpd (dayKey dp.1) < m := by
          intro dp h
          rcases hd dp h with h' | h'
          · exact hbs dp h'
          · rw [h']; omega
        cases hps : mutScanPeriods oc mo.coin d mo.shuffledPeriods bs with
        | mk bs' stop =>
            rw [hps] at hbs'
            cases stop with
            | true =>
                have hgo : mutScanDates oc mo cpd m (d :: ds) bs = bs' := by
                  rw [mutScanDates_cons_go oc mo cpd m d ds bs hday, hps]
                rw [hgo]
                exact fun dp h => hbs' dp h
            | false =>
                have hgo : mutScanDates oc mo cpd m (d :: ds) bs =
                    mutScanDates oc mo cpd m ds bs' := by
                  rw [mutScanDates_cons_go oc mo cpd m d ds bs hday, hps]
                rw [hgo]
                exact ih bs' (fun dp h => hbs' dp h)

/-! Counting lemmas relating the per-day count maps to the class lists. -/

/-- One more class on the front adds one to its day's count. -/
lemma countsOf_cons (a : ScheduledClass) (l : List ScheduledClass) (k : Nat) :
    countsOf (a :: l) k = (if dayKey a.date = k then 1 else 0) + countsOf l k := by
  unfold countsOf
  rw [List.filter_cons]
  by_cases h : dayKey a.date = k
  · subst h
    simp
    omega
  · rw [if_neg h, if_neg (by simp [h])]
    omega

/-- One more class at the back adds one to its day's count. -/
lemma countsOf_append (l : List ScheduledClass) (a : ScheduledClass) (k : Nat) :
    countsOf (l ++ [a]) k =
      countsOf l k + (if dayKey a.date = k then 1 else 0) := by
  unfold countsOf
  rw [List.filter_append, List.length_append]
  by_cases h : dayKey a.date = k
  · rw [if_pos h]
    rw [show List.filter (fun sc => dayKey sc.date == k) [a] = [a] from by
      rw [List.filter_cons]; simp [h]]
    rfl
  · rw [if_neg h]
    rw [show List.filter (fun sc => dayKey sc.date == k) [a] = [] from by
      rw [List.filter_cons]; simp [h]]
    rfl

/-- A member's day has a positive count. -/
lemma countsOf_pos_of_mem (l : List ScheduledClass) (sc : ScheduledClass)
    (h : sc ∈ l) : 1 ≤ countsOf l (dayKey sc.date) := by
  have hm : sc ∈ l.filter (fun x => dayKey x.date == dayKey sc.date) :=
    List.mem_filter.mpr ⟨h, by simp⟩
  exact List.length_pos.mpr (List.ne_nil_of_mem hm)

/-- The fold that builds the per-day count map computes the day counts. -/
lemma foldl_bump_eq (l : List ScheduledClass) :
    ∀ (f : Nat → Nat) (k : Nat),
      (l.foldl (fun cpd sc => bump cpd (dayKey sc.date)) f) k
        = f k + countsOf l k := by
  induction l with
  | nil =>
      intro f k
      show f k = f k + countsOf [] k
      simp [countsOf]
  | cons a l ih =>
      intro f k
      show (l.foldl (fun cpd sc => bump cpd (dayKey sc.date))
        (bump f (dayKey a.date))) k = f k + countsOf (a :: l) k
      rw [ih (bump f (dayKey a.date)) k, countsOf_cons]
      unfold bump
      by_cases h : k = dayKey a.date
      · rw [if_pos h, if_pos h.symm, h]
        omega
      · rw [if_neg h, if_neg (fun hh => h hh.symm)]
        omega

/-- `buildCounts` computes the day counts. -/
lemma buildCounts_eq (l : List ScheduledClass) (k : Nat) :
    buildCounts l k = countsOf l k := by
  show (l.foldl (fun cpd sc => bump cpd (dayKey sc.date)) (fun _ => 0)) k
    = countsOf l k
  rw [foldl_bump_eq l (fun _ => 0) k]
  omega

/-- Replacing the entry at an index trades its old day for its new day. -/
lemma countsOf_set (l : List ScheduledClass) :
    ∀ (idx : Nat) (old new : ScheduledClass) (k : Nat),
      l.get? idx = Option.some old →
      countsOf (l.set idx new) k + (if dayKey old.date = k then 1 else 0) =
        countsOf l k + (if dayKey new.date = k then 1 else 0) := by
  induction l with
  | nil => intro idx old new k h; cases idx <;> cases h
  | cons a l ih =>
      intro idx old new k h
      cases idx with
      | zero =>
          have ha : a = old := Option.some.inj h
          subst ha
          rw [List.set_cons_zero, countsOf_cons, countsOf_cons]
          split_ifs <;> omega
      | succ n =>
          rw [List.set_cons_succ, countsOf_cons, countsOf_cons]
          have hih := ih n old new k h
          split_ifs at hih ⊢ <;> omega

/-- The decremented count map of the mutator equals the true day counts of
the schedule with the moving class discounted on its own day. -/
lemma cpdAfterRemove_eq (s : Schedule) (sc : ScheduledClass)
    (hmem : sc ∈ s.classes) (k : Nat) :
    cpdAfterRemove s sc k =
      countsOf s.classes k - (if k = dayKey sc.date then 1 else 0) := by
  show (if k = dayKey sc.date then
      jsOr (buildCounts s.classes (dayKey sc.date)) 1 - 1
    else buildCounts s.classes k) = _
  have hpos : 1 ≤ countsOf s.classes (dayKey sc.date) :=
    countsOf_pos_of_mem s.classes sc hmem
  by_cases hk : k = dayKey sc.date
  · subst hk
    rw [if_pos rfl, if_pos rfl, buildCounts_eq]
    unfold jsOr
    rw [if_neg (by omega)]
  · rw [if_neg hk, if_neg hk, buildCounts_eq]
    omega

/-! Equation lemmas for the initial-solution builder's fold. -/

/-- Unfolding of `buildInitial` when the 0.99 coin accepted a slot. -/
lemma buildInitial_cons_acc (po : Nat → PlaceOracle) (m : Nat) (cls : Class)
    (rest : List Class) (i : Nat) (acc : List ScheduledClass) (cpd : Nat → Nat)
    (bs : Option (Nat × Nat)) (a : Nat × Nat)
    (hscan : initScanDates cls (po i) cpd m (po i).shuffledDates Option.none
      = (bs, Option.some a)) :
    buildInitial po m (cls :: rest) i acc cpd =
      buildInitial po m rest (i + 1) (acc ++ [mkScheduled cls a.1 a.2])
        (bump cpd (dayKey a.1)) := by
  cases bs with
  | none =>
      conv_lhs => rw [buildInitial]
      rw [hscan]
  | some b =>
      conv_lhs => rw [buildInitial]
      rw [hscan]

/-- Unfolding of `buildInitial` on the best-slot fallback. -/
lemma buildInitial_cons_best (po : Nat → PlaceOracle) (m : Nat) (cls : Class)
    (rest : List Class) (i : Nat) (acc : List ScheduledClass) (cpd : Nat → Nat)
    (b : Nat × Nat)
    (hscan : initScanDates cls (po i) cpd m (po i).shuffledDates Option.none
      = (Option.some b, Option.none)) :
    buildInitial po m (cls :: rest) i acc cpd =
      buildInitial po m rest (i + 1) (acc ++ [mkScheduled cls b.1 b.2])
        (bump cpd (dayKey b.1)) := by
  conv_lhs => rw [buildInitial]
  rw [hscan]

/-- Unfolding of `buildInitial` when the class stays unscheduled. -/
lemma buildInitial_cons_skip (po : Nat → PlaceOracle) (m : Nat) (cls : Class)
    (rest : List Class) (i : Nat) (acc : List ScheduledClass) (cpd : Nat → Nat)
    (hscan : initScanDates cls (po i) cpd m (po i).shuffledDates Option.none
      = (Option.none, Option.none)) :
    buildInitial po m (cls :: rest) i acc cpd =
      buildInitial po m rest (i + 1) acc cpd := by
  conv_lhs => rw [buildInitial]
  rw [hscan]

/-! The no-total-conflict invariant through the search. -/

/-- An appended placement preserves the invariant when its slot is free for
every catalogue class sharing its id. -/
lemma noConflictPlacement_append (cat : List Class) (acc : List ScheduledClass)
    (sc : ScheduledClass) (h1 : noConflictPlacement cat acc)
    (h2 : ∀ c ∈ cat, c.id = sc.id →
      hasTotalConflictAt c.totalConflicts sc.date sc.period = false) :
    noConflictPlacement cat (acc ++ [sc]) := by
  intro x hx
  rcases List.mem_append.mp hx with hx | hx
  · exact h1 x hx
  · have hxe : x = sc := List.mem_singleton.mp hx
    subst hxe
    exact h2

/-- On a catalogue with no duplicate ids, equal ids give equal classes. -/
lemma nodup_id_inj (cat : List Class) (h : (cat.map Class.id).Nodup)
    (a b : Class) (ha : a ∈ cat) (hb : b ∈ cat) (hid : a.id = b.id) : a = b :=
  List.inj_on_of_nodup_map h ha hb hid

/-- The initial-solution fold preserves the no-total-conflict invariant. -/
lemma buildInitial_noTC (cat : List Class)
    (hnodup : (cat.map Class.id).Nodup) (po : Nat → PlaceOracle) (m : Nat) :
    ∀ (todo : List Class) (i : Nat) (acc : List ScheduledClass)
      (cpd : Nat → Nat),
      (∀ c ∈ todo, c ∈ cat) → noConflictPlacement cat acc →
      noConflictPlacement cat (buildInitial po m todo i acc cpd) := by
  intro todo
  induction todo with
  | nil => intro i acc cpd _ hacc; exact hacc
  | cons cls rest ih =>
      intro i acc cpd htodo hacc
      have hclsmem : cls ∈ cat := htodo cls (List.mem_cons_self _ _)
      have hrest : ∀ c ∈ rest, c ∈ cat :=
        fun c hc => htodo c (List.mem_cons_of_mem _ hc)
      obtain ⟨hf1, hf2⟩ := initScanDates_free cls (po i) cpd m
        (po i).shuffledDates Option.none (fun dp h => by cases h)
      cases hscan : initScanDates cls (po i) cpd m (po i).shuffledDates
          Option.none with
      | mk bs res =>
          rw [hscan] at hf1 hf2
          have happend : ∀ dp : Nat × Nat,
              hasTotalConflictAt cls.totalConflicts dp.1 dp.2 = false →
              noConflictPlacement cat
                (acc ++ [mkScheduled cls dp.1 dp.2]) := by
            intro dp hfree
            refine noConflictPlacement_append cat acc _ hacc ?_
            intro c hc hid
            have hceq : c = cls := nodup_id_inj cat hnodup c cls hc hclsmem hid
            subst hceq
            exact hfree
          cases res with
          | some a =>
              rw [buildInitial_cons_acc po m cls rest i acc cpd bs a hscan]
              exact ih (i + 1) _ _ hrest (happend a (hf2 a rfl))
          | none =>
              cases bs with
              | some b =>
                  rw [buildInitial_cons_best po m cls rest i acc cpd b hscan]
                  exact ih (i + 1) _ _ hrest (happend b (hf1 b rfl))
              | none =>
                  rw [buildInitial_cons_skip po m cls rest i acc cpd hscan]
                  exact ih (i + 1) acc cpd hrest hacc

/-- The initial solution satisfies the no-total-conflict invariant. -/
lemma generateInitialSolution_noTC (eng : ScheduleEngine)
    (hnodup : (eng.classes.map Class.id).Nodup) (po : Nat → PlaceOracle) :
    noConflictPlacement eng.classes
      (generateInitialSolution eng po).classes :=
  buildInitial_noTC eng.classes hnodup po eng.constraints.maxClassesPerDay
    eng.classes 0 [] (fun _ => 0) (fun _ hc => hc)
    (fun sc hsc => absurd hsc (List.not_mem_nil sc))

/-- `mutateSchedule` preserves the no-total-conflict invariant on a
catalogue with no duplicate ids. -/
lemma mutateSchedule_noTC (eng : ScheduleEngine)
    (hnodup : (eng.classes.map Class.id).Nodup) (mo : MutOracle)
    (s out : Schedule) (hs : noConflictPlacement eng.classes s.classes)
    (h : mutateSchedule eng mo s = Option.some out) :
    noConflictPlacement eng.classes out.classes := by
  by_cases hnone : s.classes.get? (mutIndex mo s) = Option.none
  · by_cases hcat : eng.classes = []
    · have hout : out = s := (Option.some.inj
        ((mutateSchedule_unchanged eng mo s hnone hcat).symm.trans h)).symm
      subst hout
      exact hs
    · obtain ⟨c, cs, hcat'⟩ := List.exists_cons_of_ne_nil hcat
      exact Option.noConfusion
        ((mutateSchedule_fault eng mo s c cs hnone hcat').symm.trans h)
  obtain ⟨sc, hget⟩ := Option.ne_none_iff_exists'.mp hnone
  rw [mutateSchedule_get_some eng mo s sc hget] at h
  have hout : out = mutResult eng mo s sc := (Option.some.inj h).symm
  subst hout
  cases hfind : eng.classes.find? (fun c => c.id == sc.id) with
  | none =>
      rw [mutResult_nofind eng mo s sc hfind]
      exact hs
  | some oc =>
      rw [mutResult_found eng mo s sc oc hfind]
      have hocmem : oc ∈ eng.classes := List.mem_of_find?_eq_some hfind
      have hocid : oc.id = sc.id := by
        have hp := List.find?_some hfind
        exact beq_iff_eq.mp hp
      cases hscan : mutScanDates oc mo (cpdAfterRemove s sc)
          eng.constraints.maxClassesPerDay mo.shuffledDates Option.none with
      | none => exact hs
      | some dp =>
          cases dp with
          | mk d p =>
              have hfree := mutScanDates_free oc mo (cpdAfterRemove s sc)
                eng.constraints.maxClassesPerDay mo.shuffledDates Option.none
                (fun dp h => by cases h) (d, p) hscan
              intro x hx
              rcases List.mem_or_eq_of_mem_set hx with hx | hx
              · exact hs x hx
              · subst hx
                intro c hc hid
                have hceq : c = oc :=
                  nodup_id_inj eng.classes hnodup c oc hc hocmem
                    (hid.trans hocid.symm)
                subst hceq
                exact hfree

/-- `mutateSchedule` keeps the cached score equal to the recomputed score. -/
lemma mutateSchedule_scoreEq (eng : ScheduleEngine) (mo : MutOracle)
    (s out : Schedule) (hsc : s.score = calculateScore eng s.classes)
    (h : mutateSchedule eng mo s = Option.some out) :
    out.score = calculateScore eng out.classes := by
  by_cases hnone : s.classes.get? (mutIndex mo s) = Option.none
  · by_cases hcat : eng.classes = []
    · have hout : out = s := (Option.some.inj
        ((mutateSchedule_unchanged eng mo s hnone hcat).symm.trans h)).symm
      subst hout
      exact hsc
    · obtain ⟨c, cs, hcat'⟩ := List.exists_cons_of_ne_nil hcat
      exact Option.noConfusion
        ((mutateSchedule_fault eng mo s c cs hnone hcat').symm.trans h)
  obtain ⟨sc, hget⟩ := Option.ne_none_iff_exists'.mp hnone
  rw [mutateSchedule_get_some eng mo s sc hget] at h
  have hout : out = mutResult eng mo s sc := (Option.some.inj h).symm
  subst hout
  cases hfind : eng.classes.find? (fun c => c.id == sc.id) with
  | none => rw [mutResult_nofind eng mo s sc hfind]; exact hsc
  | some oc =>
      rw [mutResult_found eng mo s sc oc hfind]
      cases hscan : mutScanDates oc mo (cpdAfterRemove s sc)
          eng.constraints.maxClassesPerDay mo.shuffledDates Option.none with
      | none => rfl
      | some dp =>
          cases dp with
          | mk d p => rfl

/-- Unfolding of `violationStep` at an unknown id. -/
lemma violationStep_none (cat : List Class) (v : ℚ) (sc : ScheduledClass)
    (h : cat.find? (fun c => c.id == sc.id) = Option.none) :
    violationStep cat v sc = v := by
  unfold violationStep; rw [h]

/-- Unfolding of `violationStep` at a found id. -/
lemma violationStep_some (cat : List Class) (v : ℚ) (sc : ScheduledClass)
    (oc : Class) (h : cat.find? (fun c => c.id == sc.id) = Option.some oc) :
    violationStep cat v sc =
      if hasTotalConflictAt oc.totalConflicts sc.date sc.period then v + 1
      else v := by
  unfold violationStep; rw [h]

/-- Conflict-free placements contribute no violations. -/
lemma violations_foldl_zero (cat : List Class) :
    ∀ (l : List ScheduledClass) (v : ℚ),
      (∀ sc ∈ l, ∀ c ∈ cat, c.id = sc.id →
        hasTotalConflictAt c.totalConflicts sc.date sc.period = false) →
      l.foldl (violationStep cat) v = v := by
  intro l
  induction l with
  | nil => intro v _; rfl
  | cons sc l ih =>
      intro v hl
      rw [List.foldl_cons]
      have hstep : violationStep cat v sc = v := by
        cases hfind : cat.find? (fun c => c.id == sc.id) with
        | none => exact violationStep_none cat v sc hfind
        | some oc =>
            rw [violationStep_some cat v sc oc hfind]
            have hocmem : oc ∈ cat := List.mem_of_find?_eq_some hfind
            have hp := List.find?_some hfind
            have hocid : oc.id = sc.id := beq_iff_eq.mp hp
            rw [if_neg (by
              rw [hl sc (List.mem_cons_self _ _) oc hocmem hocid]
              exact Bool.false_ne_true)]
      rw [hstep]
      exact ih v (fun x hx => hl x (List.mem_cons_of_mem _ hx))

/-- A schedule satisfying the invariant has zero recorded violations. -/
lemma calculateConstraintViolations_zero (cat : List Class)
    (l : List ScheduledClass) (h : noConflictPlacement cat l) :
    calculateConstraintViolations cat l = 0 :=
  violations_foldl_zero cat l 0 h

/-! Claim C1 — no placement on a total-conflict slot. -/

/-- Claim C1: on a catalogue with unique ids (the data model's invariant),
every schedule returned by `generateSchedule` places no class on one of its
own total-conflict slots — dates compared by exact time value and periods by
number — and consequently its `constraintViolations` component is 0. -/
theorem c1_no_total_conflict (eng : ScheduleEngine) (ro : RunOracle)
    (hnodup : (eng.classes.map Class.id).Nodup) (S : Schedule)
    (hS : ScheduleEngine.generateSchedule eng ro = Option.some S) :
    noConflictPlacement eng.classes S.classes ∧
    S.score.constraintViolations = 0 := by
  have hstep : ∀ j cur out,
      (noConflictPlacement eng.classes cur.classes ∧
        cur.score = calculateScore eng cur.classes) →
      mutateSchedule eng (ro.mutAt j) cur = Option.some out →
      noConflictPlacement eng.classes out.classes ∧
        out.score = calculateScore eng out.classes :=
    fun j cur out hc hm =>
      ⟨mutateSchedule_noTC eng hnodup (ro.mutAt j) cur out hc.1 hm,
        mutateSchedule_scoreEq eng (ro.mutAt j) cur out hc.2 hm⟩
  have hinit : noConflictPlacement eng.classes
      (generateInitialSolution eng ro.init).classes ∧
      (generateInitialSolution eng ro.init).score =
        calculateScore eng (generateInitialSolution eng ro.init).classes :=
    ⟨generateInitialSolution_noTC eng hnodup ro.init, rfl⟩
  have hP := annealLoopFull_inv eng ro
    (fun T => noConflictPlacement eng.classes T.classes ∧
      T.score = calculateScore eng T.classes)
    hstep MAX_ITERATIONS 0 0 (generateInitialSolution eng ro.init)
    (generateInitialSolution eng ro.init) Option.none hinit hinit S hS
  refine ⟨hP.1, ?_⟩
  rw [hP.2]
  exact calculateConstraintViolations_zero eng.classes S.classes hP.1

/-- Claim C1, witness: the stalling run on the two-class engine returns its
initial solution, which places no class on a total-conflict slot and has a
zero `constraintViolations` component. -/
theorem c1_no_total_conflict_witness :
    noConflictPlacement exEng.classes
      (generateInitialSolution exEng exStallRo.init).classes ∧
    (generateInitialSolution exEng exStallRo.init).score.constraintViolations
      = 0 := by
  have hmut : mutateSchedule exEng exMoStay
      (generateInitialSolution exEng exStallRo.init)
      = Option.some (generateInitialSolution exEng exStallRo.init) := by decide
  exact c1_no_total_conflict exEng exStallRo (by decide)
    (generateInitialSolution exEng exStallRo.init)
    (generateSchedule_stall exEng exStallRo (fun j => hmut) (fun j => rfl))

/-! The per-day cap invariant through the search. -/

/-- The initial-solution fold keeps every day at or under the cap. -/
lemma buildInitial_cap (po : Nat → PlaceOracle) (m : Nat) :
    ∀ (todo : List Class) (i : Nat) (acc : List ScheduledClass)
      (cpd : Nat → Nat),
      (∀ k, cpd k = countsOf acc k) → withinDailyCap m acc →
      withinDailyCap m (buildInitial po m todo i acc cpd) := by
  intro todo
  induction todo with
  | nil => intro i acc cpd _ hcap; exact hcap
  | cons cls rest ih =>
      intro i acc cpd heq hcap
      obtain ⟨hc1, hc2⟩ := initScanDates_cap cls (po i) cpd m
        (po i).shuffledDates Option.none (fun dp h => by cases h)
      cases hscan : initScanDates cls (po i) cpd m (po i).shuffledDates
          Option.none with
      | mk bs res =>
          rw [hscan] at hc1 hc2
          have hnext : ∀ dp : Nat × Nat, cpd (dayKey dp.1) < m →
              (∀ k, bump cpd (dayKey dp.1) k =
                countsOf (acc ++ [mkScheduled cls dp.1 dp.2]) k) ∧
              withinDailyCap m (acc ++ [mkScheduled cls dp.1 dp.2]) := by
            intro dp hlt
            constructor
            · intro k
              rw [countsOf_append]
              show (if k = dayKey dp.1 then cpd (dayKey dp.1) + 1 else cpd k) = _
              by_cases hk : k = dayKey dp.1
              · rw [if_pos hk, if_pos (show dayKey (mkScheduled cls dp.1 dp.2).date
                  = k from hk.symm), heq (dayKey dp.1), hk]
              · rw [if_neg hk, if_neg (show ¬ dayKey (mkScheduled cls dp.1 dp.2).date
                  = k from fun hh => hk hh.symm), heq k]
                omega
            · intro k
              rw [countsOf_append]
              by_cases hk : dayKey (mkScheduled cls dp.1 dp.2).date = k
              · rw [if_pos hk]
                have hkk : dayKey dp.1 = k := hk
                rw [← hkk]
                have hcpdk := heq (dayKey dp.1)
                omega
              · rw [if_neg hk]
                have := hcap k
                omega
          cases res with
          | some a =>
              rw [buildInitial_cons_acc po m cls rest i acc cpd bs a hscan]
              obtain ⟨h1, h2⟩ := hnext a (hc2 a rfl)
              exact ih (i + 1) _ _ h1 h2
          | none =>
              cases bs with
              | some b =>
                  rw [buildInitial_cons_best po m cls rest i acc cpd b hscan]
                  obtain ⟨h1, h2⟩ := hnext b (hc1 b rfl)
                  exact ih (i + 1) _ _ h1 h2
              | none =>
                  rw [buildInitial_cons_skip po m cls rest i acc cpd hscan]
                  exact ih (i + 1) acc cpd heq hcap

/-- The initial solution keeps every day at or under the cap. -/
lemma generateInitialSolution_cap (eng : ScheduleEngine)
    (po : Nat → PlaceOracle) :
    withinDailyCap eng.constraints.maxClassesPerDay
      (generateInitialSolution eng po).classes :=
  buildInitial_cap po eng.constraints.maxClassesPerDay eng.classes 0 []
    (fun _ => 0) (fun k => by simp [countsOf])
    (fun k => by simp [countsOf])

/-- `mutateSchedule` keeps every day at or under the cap. -/
lemma mutateSchedule_cap (eng : ScheduleEngine) (mo : MutOracle)
    (s out : Schedule)
    (hcap : withinDailyCap eng.constraints.maxClassesPerDay s.classes)
    (h : mutateSchedule eng mo s = Option.some out) :
    withinDailyCap eng.constraints.maxClassesPerDay out.classes := by
  by_cases hnone : s.classes.get? (mutIndex mo s) = Option.none
  · by_cases hcat : eng.classes = []
    · have hout : out = s := (Option.some.inj
        ((mutateSchedule_unchanged eng mo s hnone hcat).symm.trans h)).symm
      subst hout
      exact hcap
    · obtain ⟨c, cs, hcat'⟩ := List.exists_cons_of_ne_nil hcat
      exact Option.noConfusion
        ((mutateSchedule_fault eng mo s c cs hnone hcat').symm.trans h)
  obtain ⟨sc, hget⟩ := Option.ne_none_iff_exists'.mp hnone
  have hmem : sc ∈ s.classes := List.get?_mem hget
  rw [mutateSchedule_get_some eng mo s sc hget] at h
  have hout : out = mutResult eng mo s sc := (Option.some.inj h).symm
  subst hout
  cases hfind : eng.classes.find? (fun c => c.id == sc.id) with
  | none =>
      rw [mutResult_nofind eng mo s sc hfind]
      exact hcap
  | some oc =>
      rw [mutResult_found eng mo s sc oc hfind]
      cases hscan : mutScanDates oc mo (cpdAfterRemove s sc)
          eng.constraints.maxClassesPerDay mo.shuffledDates Option.none with
      | none => exact hcap
      | some dp =>
          cases dp with
          | mk d p =>
              have hday := mutScanDates_cap oc mo (cpdAfterRemove s sc)
                eng.constraints.maxClassesPerDay mo.shuffledDates Option.none
                (fun dp h => by cases h) (d, p) hscan
              rw [cpdAfterRemove_eq s sc hmem (dayKey d)] at hday
              intro k
              have hset := countsOf_set s.classes (mutIndex mo s) sc
                { sc with date := d, period := p } k hget
              have hdate : ({ sc with date := d, period := p } :
                ScheduledClass).date = d := rfl
              rw [hdate] at hset
              show countsOf (s.classes.set (mutIndex mo s)
                { sc with date := d, period := p }) k ≤ _
              have hq := hcap k
              by_cases h2 : dayKey d = k
              · subst h2
                by_cases h1 : dayKey sc.date = dayKey d
                · rw [if_pos h1, if_pos rfl] at hset
                  rw [if_pos h1.symm] at hday
                  omega
                · rw [if_neg h1, if_pos rfl] at hset
                  rw [if_neg (fun hh => h1 hh.symm)] at hday
                  omega
              · by_cases h1 : dayKey sc.date = k
                · rw [if_pos h1, if_neg h2] at hset
                  omega
                · rw [if_neg h1, if_neg h2] at hset
                  omega

/-! Claim C5 — no day is ever overbooked. -/

/-- Claim C5: every schedule returned by `generateSchedule` has at most
`constraints.maxClassesPerDay` classes on any calendar day: the initial
builder and the mutator skip full days, and the best-slot fallbacks commit
only to days that were under the cap when remembered. -/
theorem c5_daily_cap (eng : ScheduleEngine) (ro : RunOracle) (S : Schedule)
    (hS : ScheduleEngine.generateSchedule eng ro = Option.some S) :
    ∀ k, countsOf S.classes k ≤ eng.constraints.maxClassesPerDay := by
  have hstep : ∀ j cur out,
      withinDailyCap eng.constraints.maxClassesPerDay cur.classes →
      mutateSchedule eng (ro.mutAt j) cur = Option.some out →
      withinDailyCap eng.constraints.maxClassesPerDay out.classes :=
    fun j cur out hc hm => mutateSchedule_cap eng (ro.mutAt j) cur out hc hm
  have hinit := generateInitialSolution_cap eng ro.init
  exact annealLoopFull_inv eng ro
    (fun T => withinDailyCap eng.constraints.maxClassesPerDay T.classes)
    hstep MAX_ITERATIONS 0 0 (generateInitialSolution eng ro.init)
    (generateInitialSolution eng ro.init) Option.none hinit hinit S hS

/-- Claim C5, witness: the stalling run on the two-class engine returns its
initial solution, whose first calendar day holds at most two classes. -/
theorem c5_daily_cap_witness :
    countsOf (generateInitialSolution exEng exStallRo.init).classes 0
      ≤ exEng.constraints.maxClassesPerDay := by
  have hmut : mutateSchedule exEng exMoStay
      (generateInitialSolution exEng exStallRo.init)
      = Option.some (generateInitialSolution exEng exStallRo.init) := by decide
  exact c5_daily_cap exEng exStallRo
    (generateInitialSolution exEng exStallRo.init)
    (generateSchedule_stall exEng exStallRo (fun j => hmut) (fun j => rfl)) 0

end CR
